import Mathlib

/-!
Shallow embedding of the 2D U-Net model in `src/models/unet.py`
(classes `UNetBase`, `UNet2d`, `Encoder2d`, `Decoder2d`, `EncoderBlock2d`,
`DecoderBlock2d`), together with proofs about its shape arithmetic,
construction-time validation, channel plan and bundle round-trip.

Modelling conventions:
* All spatial arithmetic in the source acts independently and identically on
  the height and the width dimension (scalar kernel/stride/dilation arguments
  are duplicated by `_pair`), so tensors are modelled by their shape projected
  to one spatial dimension: `(batch, channels, h)`.  Every height formula
  below is the literal height line of the source; the width dimension obeys
  the same formulas.
* Python `%` on ints is floor-mod, which for a positive divisor coincides
  with `Int.emod`, i.e. Lean's `%` on `Int`; Python `//` likewise coincides
  with `Int.ediv` (`/`) for positive divisors.
* Fallible operations (assertions, `raise NotImplementedError`, list
  indexing, `torch.cat` shape checks, channel-count checks of conv layers)
  are modelled in `Except String`.
* `nn.BatchNorm2d` and the activations are shape-preserving, so they do not
  appear in the shape-level forward functions.
* Learnable parameters are opaque to the shape level: a model carries an
  abstract `state : StateDict`; `load_state_dict` replaces it.
-/

namespace UNet

/-- Shape of a 4-d tensor `(batch, channels, H, W)`, projected to one spatial
dimension (see module docstring). -/
structure Shape where
  batch : Nat
  channels : Nat
  h : Int
deriving DecidableEq, Repr

/-- A configuration field that is either a scalar or a per-stage list
(`kernel_size`, `stride`, `nonlinear` all accept both in the source). -/
inductive Arg (α : Type) where
  | scalar (a : α)
  | list (l : List α)
deriving DecidableEq, Repr

/-- Source `if type(x) is not list: x = [x] * n_blocks` (unet.py lines 113-121). -/
def Arg.broadcast {α : Type} : Arg α → Nat → List α
  | .scalar a, n => List.replicate n a
  | .list l, _ => l

/-- Python list indexing `l[n]`: raises `IndexError` when out of range. -/
def getItem {α : Type} (l : List α) (n : Nat) : Except String α :=
  match l[n]? with
  | some a => .ok a
  | none => .error "IndexError"

/-- Effective (dilated) kernel extent: `Kh = (Kh - 1) * Dh + 1`
(unet.py lines 248-249 and 309-310). -/
def effKernel (K D : Int) : Int := (K - 1) * D + 1

/-- Source `padding_height = Kh - 1 - (Sh - (H - Kh) % Sh) % Sh` with `Kh` the
effective kernel (unet.py line 252; `%` is Python floor-mod). -/
def padding_height (H K S D : Int) : Int :=
  effKernel K D - 1 - (S - (H - effKernel K D) % S) % S

/-- Height after `F.pad` followed by `nn.Conv2d` with stride `S` and
dilation `D` and no internal padding: `floor((H_padded - K_eff) / S) + 1`
(unet.py lines 259-261; the PyTorch `Conv2d` output-size formula). -/
def encOutSize (H K S D : Int) : Int :=
  (H + padding_height H K S D - effKernel K D) / S + 1

/-- Decoder-side crop total: `padding_height = Kh - Sh` with `Kh` the
effective kernel (unet.py line 312). -/
def dec_padding_height (K S D : Int) : Int := effKernel K D - S

/-- Height after `nn.ConvTranspose2d` (`(H - 1) * S + K_eff`) followed by the
negative `F.pad` crop of `dec_padding_height` (unet.py lines 322-323). -/
def decOutSize (H K S D : Int) : Int :=
  ((H - 1) * S + effKernel K D) - dec_padding_height K S D

/-- Source `torch.cat([input, skip], dim=1)` at shape level: requires all non-channel
dims to agree, concatenates channel counts (unet.py line 320). -/
def cat (a b : Shape) : Except String Shape :=
  if a.batch = b.batch ∧ a.h = b.h then
    .ok ⟨a.batch, a.channels + b.channels, a.h⟩
  else
    .error "cat: size mismatch"

/-- One encoder stage (`EncoderBlock2d.__init__` stored attributes,
unet.py lines 216-237).  The conv / batch-norm / activation operators are
represented by their shape behaviour in `EncoderBlock2d.forward`. -/
structure EncoderBlock2d where
  in_channels : Nat
  out_channels : Nat
  kernel_size : Int
  stride : Int
  dilation : Int
  separable : Bool
  nonlinear : String
deriving DecidableEq, Repr

/-- Source `EncoderBlock2d.__init__` (unet.py lines 216-237): default
`stride = kernel_size`; any activation other than `'relu'` raises
`NotImplementedError` at construction time. -/
def EncoderBlock2d.init (in_channels out_channels : Nat) (kernel_size : Int)
    (stride : Option Int) (dilation : Int) (separable : Bool) (nonlinear : String) :
    Except String EncoderBlock2d :=
  let stride := stride.getD kernel_size
  if nonlinear = "relu" then
    .ok ⟨in_channels, out_channels, kernel_size, stride, dilation, separable, nonlinear⟩
  else
    .error "NotImplementedError"

/-- Source `EncoderBlock2d.forward` (unet.py lines 239-265): pad by
`padding_height`, convolve (which checks the input channel count), then
shape-preserving batch-norm and ReLU. -/
def EncoderBlock2d.forward (blk : EncoderBlock2d) (input : Shape) : Except String Shape :=
  if input.channels = blk.in_channels then
    .ok ⟨input.batch, blk.out_channels,
      encOutSize input.h blk.kernel_size blk.stride blk.dilation⟩
  else
    .error "channel mismatch"

/-- One decoder stage (`DecoderBlock2d.__init__` stored attributes,
unet.py lines 273-296). -/
structure DecoderBlock2d where
  in_channels : Nat
  out_channels : Nat
  kernel_size : Int
  stride : Int
  dilation : Int
  separable : Bool
  nonlinear : String
deriving DecidableEq, Repr

/-- Source `DecoderBlock2d.__init__` (unet.py lines 273-296): default
`stride = kernel_size`; only `'relu'` and `'sigmoid'` are accepted. -/
def DecoderBlock2d.init (in_channels out_channels : Nat) (kernel_size : Int)
    (stride : Option Int) (dilation : Int) (separable : Bool) (nonlinear : String) :
    Except String DecoderBlock2d :=
  let stride := stride.getD kernel_size
  if nonlinear = "relu" then
    .ok ⟨in_channels, out_channels, kernel_size, stride, dilation, separable, nonlinear⟩
  else if nonlinear = "sigmoid" then
    .ok ⟨in_channels, out_channels, kernel_size, stride, dilation, separable, nonlinear⟩
  else
    .error "NotImplementedError"

/-- Source `DecoderBlock2d.forward` (unet.py lines 298-327): optionally concatenate
the skip tensor along channels, transpose-convolve (checking the channel
count), crop by `dec_padding_height`, then shape-preserving batch-norm and
activation. -/
def DecoderBlock2d.forward (blk : DecoderBlock2d) (input : Shape) (skip : Option Shape) :
    Except String Shape :=
  (match skip with
   | none => Except.ok input
   | some sk => cat input sk).bind fun input =>
  if input.channels = blk.in_channels then
    .ok ⟨input.batch, blk.out_channels,
      decOutSize input.h blk.kernel_size blk.stride blk.dilation⟩
  else
    .error "channel mismatch"

/-- Source `if stride is None: stride = kernel_size` after broadcast
(unet.py lines 115-118 and 169-172; note the default is the already
broadcast kernel list). -/
def resolveStride (kernel_size : Arg Int) (stride : Option (Arg Int)) (n_blocks : Nat) :
    List Int :=
  match stride with
  | none => kernel_size.broadcast n_blocks
  | some st => st.broadcast n_blocks

/-- Source `Encoder2d` holds `n_blocks` and the stage list (unet.py lines 99-135). -/
structure Encoder2d where
  n_blocks : Nat
  net : List EncoderBlock2d
deriving DecidableEq, Repr

/-- The `for n in range(n_blocks)` construction loop of `Encoder2d.__init__`
(unet.py lines 127-133): when `dilated`, stage `n` gets dilation `2^n` and
`assert stride[n] == 1` fires first; then the stage block is built from
`channels[n] -> channels[n+1]`. -/
def Encoder2d.loop (channels : List Nat) (ks ss : List Int) (nls : List String)
    (dilated separable : Bool) : Nat → Nat → Except String (List EncoderBlock2d)
  | _, 0 => .ok []
  | n, rem+1 =>
    (if dilated then
        (getItem ss n).bind fun s =>
          if s = 1 then .ok ((2:Int) ^ n)
          else .error "stride must be 1 when dilated convolution."
      else .ok 1).bind fun dilation =>
    (getItem ks n).bind fun k =>
    (getItem ss n).bind fun s =>
    (getItem nls n).bind fun nl =>
    (EncoderBlock2d.init (channels.getD n 0) (channels.getD (n+1) 0) k (some s)
        dilation separable nl).bind fun blk =>
    (Encoder2d.loop channels ks ss nls dilated separable (n+1) rem).map fun rest =>
      blk :: rest

/-- Source `Encoder2d.__init__` (unet.py lines 100-135): `n_blocks = len(channels) - 1`,
broadcast the scalar fields, then run the construction loop. -/
def Encoder2d.init (channels : List Nat) (kernel_size : Arg Int)
    (stride : Option (Arg Int)) (dilated separable : Bool) (nonlinear : Arg String) :
    Except String Encoder2d :=
  let n_blocks := channels.length - 1
  let ks := kernel_size.broadcast n_blocks
  let ss := resolveStride kernel_size stride n_blocks
  let nls := nonlinear.broadcast n_blocks
  (Encoder2d.loop channels ks ss nls dilated separable 0 n_blocks).map fun net =>
    ⟨n_blocks, net⟩

/-- The `for n in range(n_blocks)` loop of `Encoder2d.forward`
(unet.py lines 137-147): thread the tensor through the stages, collecting
every stage output in the skip list, and return the final tensor as well. -/
def Encoder2d.runNet : List EncoderBlock2d → Shape → Except String (Shape × List Shape)
  | [], x => .ok (x, [])
  | blk :: rest, x =>
    (blk.forward x).bind fun x1 =>
    (Encoder2d.runNet rest x1).map fun p => (p.1, x1 :: p.2)

/-- Source `Encoder2d.forward` (unet.py lines 137-147); `len(net) = n_blocks`. -/
def Encoder2d.forward (enc : Encoder2d) (input : Shape) :
    Except String (Shape × List Shape) :=
  Encoder2d.runNet enc.net input

/-- Source `Decoder2d` (unet.py lines 153-189). -/
structure Decoder2d where
  n_blocks : Nat
  net : List DecoderBlock2d
deriving DecidableEq, Repr

/-- The construction loop of `Decoder2d.__init__` (unet.py lines 180-188):
when `dilated`, stage `n` gets dilation `2^(n_blocks - n - 1)` and
`assert stride[n] == 1` fires; the stage block is built from
`channels[n] -> channels[n+1] // 2` (halved because of the skip
concatenation). -/
def Decoder2d.loop (channels : List Nat) (ks ss : List Int) (nls : List String)
    (dilated separable : Bool) (n_blocks : Nat) :
    Nat → Nat → Except String (List DecoderBlock2d)
  | _, 0 => .ok []
  | n, rem+1 =>
    (if dilated then
        (getItem ss n).bind fun s =>
          if s = 1 then .ok ((2:Int) ^ (n_blocks - n - 1))
          else .error "stride must be 1 when dilated convolution."
      else .ok 1).bind fun dilation =>
    (getItem ks n).bind fun k =>
    (getItem ss n).bind fun s =>
    (getItem nls n).bind fun nl =>
    (DecoderBlock2d.init (channels.getD n 0) (channels.getD (n+1) 0 / 2) k (some s)
        dilation separable nl).bind fun blk =>
    (Decoder2d.loop channels ks ss nls dilated separable n_blocks (n+1) rem).map fun rest =>
      blk :: rest

/-- Source `Decoder2d.__init__` (unet.py lines 154-189). -/
def Decoder2d.init (channels : List Nat) (kernel_size : Arg Int)
    (stride : Option (Arg Int)) (dilated separable : Bool) (nonlinear : Arg String) :
    Except String Decoder2d :=
  let n_blocks := channels.length - 1
  let ks := kernel_size.broadcast n_blocks
  let ss := resolveStride kernel_size stride n_blocks
  let nls := nonlinear.broadcast n_blocks
  (Decoder2d.loop channels ks ss nls dilated separable n_blocks 0 n_blocks).map fun net =>
    ⟨n_blocks, net⟩

/-- The `for n in range(n_blocks)` loop of `Decoder2d.forward`
(unet.py lines 191-208): stage 0 takes no skip tensor; stage `n >= 1`
consumes `skip[n]` (Python indexing, hence `IndexError` when missing). -/
def Decoder2d.go (skip : List Shape) : List DecoderBlock2d → Nat → Shape → Except String Shape
  | [], _, x => .ok x
  | blk :: rest, n, x =>
    (if n = 0 then blk.forward x none
     else (getItem skip n).bind fun sk => blk.forward x (some sk)).bind fun x1 =>
    Decoder2d.go skip rest (n+1) x1

/-- Source `Decoder2d.forward` (unet.py lines 191-208). -/
def Decoder2d.forward (dec : Decoder2d) (input : Shape) (skip : List Shape) :
    Except String Shape :=
  Decoder2d.go skip dec.net 0 input

/-- Source `channels_dec` before doubling (unet.py lines 62-65):
`channels[::-1]`, or `channels[:0:-1] + [out_channels]` when an output
override is given. -/
def UNet2d.channelsDecBase (channels : List Nat) (out_channels : Option Nat) : List Nat :=
  match out_channels with
  | none => channels.reverse
  | some oc => (channels.drop 1).reverse ++ [oc]

/-- The doubling loop of `UNet2d.__init__` (unet.py lines 67-75): every
entry except the first is doubled, to account for skip concatenation. -/
def UNet2d.channelsDec (channels : List Nat) (out_channels : Option Nat) : List Nat :=
  match UNet2d.channelsDecBase channels out_channels with
  | [] => []
  | c :: rest => c :: rest.map (2 * ·)

/-- Abstract snapshot of every learnable parameter (`state_dict`). -/
abbrev StateDict := List (String × Int)

/-- Source `UNet2d`: stored raw configuration fields (unet.py lines 78-82), the
encoder, the `nn.Conv2d(channels[-1], channels[-1], (1,1), (1,1))`
bottleneck (represented by its channel count; a 1x1 stride-1 convolution
preserves the spatial size), the decoder, and the parameter state. -/
structure UNet2d where
  channels : List Nat
  kernel_size : Arg Int
  stride : Option (Arg Int)
  dilated : Bool
  separable : Bool
  nonlinear_enc : Arg String
  nonlinear_dec : Arg String
  out_channels : Option Nat
  encoder : Encoder2d
  bottleneck : Nat
  decoder : Decoder2d
  state : StateDict
deriving DecidableEq, Repr

/-- Source `UNet2d.__init__` (unet.py lines 52-86).  `initState` stands for the
randomly initialised parameters. -/
def UNet2d.init (channels : List Nat) (kernel_size : Arg Int) (stride : Option (Arg Int))
    (dilated separable : Bool) (nonlinear_enc nonlinear_dec : Arg String)
    (out_channels : Option Nat) (initState : StateDict) : Except String UNet2d :=
  (Encoder2d.init channels kernel_size stride dilated separable nonlinear_enc).bind
    fun encoder =>
  (Decoder2d.init (UNet2d.channelsDec channels out_channels) kernel_size stride dilated
      separable nonlinear_dec).bind fun decoder =>
  .ok { channels := channels, kernel_size := kernel_size, stride := stride,
        dilated := dilated, separable := separable,
        nonlinear_enc := nonlinear_enc, nonlinear_dec := nonlinear_dec,
        out_channels := out_channels,
        encoder := encoder, bottleneck := channels.getLastD 0, decoder := decoder,
        state := initState }

/-- The bottleneck `nn.Conv2d(ch, ch, kernel_size=(1,1), stride=(1,1))` at
shape level: checks the channel count; output height
`floor((H - 1)/1) + 1 = H`. -/
def conv1x1 (ch : Nat) (x : Shape) : Except String Shape :=
  if x.channels = ch then .ok ⟨x.batch, ch, x.h⟩ else .error "channel mismatch"

/-- Source `UNet2d.forward` (unet.py lines 88-93): encoder, bottleneck, then the
decoder consuming the reversed skip list. -/
def UNet2d.forward (m : UNet2d) (input : Shape) : Except String Shape :=
  (m.encoder.forward input).bind fun p =>
  (conv1x1 m.bottleneck p.1).bind fun x =>
  m.decoder.forward x p.2.reverse

/-- The flat configuration bundle written by `UNetBase.get_package`
(unet.py lines 27-39); the caller stores `state_dict` alongside it. -/
structure Package where
  channels : List Nat
  kernel_size : Arg Int
  stride : Option (Arg Int)
  dilated : Bool
  separable : Bool
  nonlinear_enc : Arg String
  nonlinear_dec : Arg String
  out_channels : Option Nat
deriving DecidableEq, Repr

/-- Source `UNetBase.get_package` (unet.py lines 27-39). -/
def UNet2d.get_package (m : UNet2d) : Package :=
  { channels := m.channels, kernel_size := m.kernel_size, stride := m.stride,
    dilated := m.dilated, separable := m.separable,
    nonlinear_enc := m.nonlinear_enc, nonlinear_dec := m.nonlinear_dec,
    out_channels := m.out_channels }

/-- Source `UNetBase.load_model` (unet.py lines 12-25): rebuild the model from the
bundled configuration (with fresh random parameters `initState`), then
`load_state_dict` replaces all parameters with the bundled snapshot. -/
def UNet2d.load_model (package : Package) (state_dict : StateDict) (initState : StateDict) :
    Except String UNet2d :=
  (UNet2d.init package.channels package.kernel_size package.stride package.dilated
      package.separable package.nonlinear_enc package.nonlinear_dec package.out_channels
      initState).map fun model =>
    { model with state := state_dict }

/-- A concrete model: `UNet2d([1,2,3], kernel_size=2, stride=2)`, spelled out
as the structure that `UNet2d.init` produces (checked by `rfl` below). -/
def mEx : UNet2d :=
  { channels := [1,2,3], kernel_size := .scalar 2, stride := some (.scalar 2),
    dilated := false, separable := false, nonlinear_enc := .scalar "relu",
    nonlinear_dec := .scalar "relu", out_channels := none,
    encoder := ⟨2, [⟨1,2,2,2,1,false,"relu"⟩, ⟨2,3,2,2,1,false,"relu"⟩]⟩,
    bottleneck := 3,
    decoder := ⟨2, [⟨3,2,2,2,1,false,"relu"⟩, ⟨4,1,2,2,1,false,"relu"⟩]⟩,
    state := [] }

/-- A concrete dilated encoder: `Encoder2d([1,1,1], kernel_size=3, stride=1,
dilated=True)`. -/
def encEx : Encoder2d := ⟨2, [⟨1,1,3,1,1,false,"relu"⟩, ⟨1,1,3,1,2,false,"relu"⟩]⟩

/-- A concrete dilated decoder: `Decoder2d([1,2,2], kernel_size=3, stride=1,
dilated=True)`. -/
def decEx : Decoder2d := ⟨2, [⟨1,1,3,1,2,false,"relu"⟩, ⟨2,1,3,1,1,false,"relu"⟩]⟩

/-! ### Inversion and evaluation helpers -/

theorem exceptBind_ok {α β : Type} {x : Except String α} {f : α → Except String β} {b : β} :
    x.bind f = .ok b ↔ ∃ a, x = .ok a ∧ f a = .ok b := by
  cases x <;> simp [Except.bind]

theorem exceptMap_ok {α β : Type} {x : Except String α} {f : α → β} {b : β} :
    x.map f = .ok b ↔ ∃ a, x = .ok a ∧ f a = b := by
  cases x <;> simp [Except.map]

theorem getItem_ok {α : Type} {l : List α} {n : Nat} {a : α} :
    getItem l n = .ok a ↔ l[n]? = some a := by
  unfold getItem
  cases h : l[n]? <;> simp

theorem getElem?_eq_getD {α : Type} [Inhabited α] {l : List α} {i : Nat} (h : i < l.length)
    (d : α) : l[i]? = some (l.getD i d) := by
  rw [List.getD_eq_getElem?_getD, List.getElem?_eq_getElem h]
  rfl

theorem EncoderBlock2d.init_ok_enc {i o : Nat} {k : Int} {st : Option Int} {d : Int}
    {sep : Bool} {nl : String} {blk : EncoderBlock2d} :
    EncoderBlock2d.init i o k st d sep nl = .ok blk ↔
      nl = "relu" ∧ blk = ⟨i, o, k, st.getD k, d, sep, nl⟩ := by
  unfold EncoderBlock2d.init
  split <;> simp_all [eq_comm]

theorem DecoderBlock2d.init_ok_dec {i o : Nat} {k : Int} {st : Option Int} {d : Int}
    {sep : Bool} {nl : String} {blk : DecoderBlock2d} :
    DecoderBlock2d.init i o k st d sep nl = .ok blk ↔
      (nl = "relu" ∨ nl = "sigmoid") ∧ blk = ⟨i, o, k, st.getD k, d, sep, nl⟩ := by
  unfold DecoderBlock2d.init
  split <;> [skip; split] <;> simp_all [eq_comm]

theorem EncoderBlock2d.forward_ok {blk : EncoderBlock2d} {x : Shape}
    (hc : x.channels = blk.in_channels) :
    blk.forward x =
      .ok ⟨x.batch, blk.out_channels, encOutSize x.h blk.kernel_size blk.stride blk.dilation⟩ := by
  simp [EncoderBlock2d.forward, hc]

theorem DecoderBlock2d.forward_none_ok {blk : DecoderBlock2d} {x : Shape}
    (hc : x.channels = blk.in_channels) :
    blk.forward x none =
      .ok ⟨x.batch, blk.out_channels, decOutSize x.h blk.kernel_size blk.stride blk.dilation⟩ := by
  simp [DecoderBlock2d.forward, Except.bind, hc]

theorem DecoderBlock2d.forward_some_ok {blk : DecoderBlock2d} {x sk : Shape}
    (hb : x.batch = sk.batch) (hh : x.h = sk.h)
    (hc : x.channels + sk.channels = blk.in_channels) :
    blk.forward x (some sk) =
      .ok ⟨x.batch, blk.out_channels, decOutSize x.h blk.kernel_size blk.stride blk.dilation⟩ := by
  simp [DecoderBlock2d.forward, cat, hb, hh, Except.bind, hc]

theorem DecoderBlock2d.forward_channels {blk : DecoderBlock2d} {x : Shape}
    {sk : Option Shape} {r : Shape} (h : blk.forward x sk = .ok r) :
    r.channels = blk.out_channels := by
  unfold DecoderBlock2d.forward at h
  rw [exceptBind_ok] at h
  obtain ⟨a, _, h⟩ := h
  by_cases hc : a.channels = blk.in_channels <;> simp [hc] at h
  exact h.symm ▸ rfl

/-! ### Arithmetic of the padding formulas -/

/-- The encoder padding simplifies to `K_eff - 1 - (K_eff - H) % S`. -/
theorem padding_height_eq (H K S D : Int) :
    padding_height H K S D = effKernel K D - 1 - (effKernel K D - H) % S := by
  unfold padding_height
  have h1 : Int.ModEq S ((H - effKernel K D) % S) (H - effKernel K D) :=
    Int.emod_emod_of_dvd _ dvd_rfl
  have h0 : Int.ModEq S S 0 := by rw [Int.ModEq, Int.emod_self, Int.zero_emod]
  have h2 : Int.ModEq S (S - (H - effKernel K D) % S) (0 - (H - effKernel K D)) := h0.sub h1
  have h3 : (S - (H - effKernel K D) % S) % S = (effKernel K D - H) % S := by
    simpa [sub_sub_cancel, zero_sub, neg_sub] using h2
  rw [h3]

theorem emod_le_self_of_nonneg {a S : Int} (ha : 0 ≤ a) (hS : 0 < S) : a % S ≤ a := by
  have h1 : a % S = a - S * (a / S) := Int.emod_def a S
  have h2 : 0 ≤ a / S := Int.ediv_nonneg ha (le_of_lt hS)
  nlinarith

/-- If the stride divides the input extent, the padded-then-convolved output
extent is exactly the quotient, whatever the kernel and dilation. -/
theorem encOutSize_of_dvd {S : Int} (hS : 1 ≤ S) (q K D : Int) :
    encOutSize (S * q) K S D = q := by
  unfold encOutSize
  rw [padding_height_eq]
  have hr0 : 0 ≤ (effKernel K D - S * q) % S := Int.emod_nonneg _ (by omega)
  have hr1 : (effKernel K D - S * q) % S < S := Int.emod_lt_of_pos _ (by omega)
  have h : S * q + (effKernel K D - 1 - (effKernel K D - S * q) % S) - effKernel K D
      = (S - 1 - (effKernel K D - S * q) % S) + (q - 1) * S := by ring
  rw [h, Int.add_mul_ediv_right _ _ (by omega : S ≠ 0),
    Int.ediv_eq_zero_of_lt (by omega) (by omega)]
  ring

/-- The decoder block scales the spatial extent by exactly the stride. -/
theorem decOutSize_eq (H K S D : Int) : decOutSize H K S D = H * S := by
  unfold decOutSize dec_padding_height
  ring

/-! ### Construction-loop inversion -/

theorem Encoder2d.loop_succ_iff_enc {ch : List Nat} {ks ss : List Int} {nls : List String}
    {dil sep : Bool} {n rem : Nat} {l : List EncoderBlock2d} :
    Encoder2d.loop ch ks ss nls dil sep n (rem+1) = .ok l ↔
      ∃ k s rest, ks[n]? = some k ∧ ss[n]? = some s ∧ nls[n]? = some "relu" ∧
        (dil = true → s = 1) ∧
        Encoder2d.loop ch ks ss nls dil sep (n+1) rem = .ok rest ∧
        l = ⟨ch.getD n 0, ch.getD (n+1) 0, k, s, (if dil then (2:Int)^n else 1), sep,
          "relu"⟩ :: rest := by
  constructor
  · intro h
    unfold Encoder2d.loop at h
    rw [exceptBind_ok] at h
    obtain ⟨dilation, hd, h⟩ := h
    rw [exceptBind_ok] at h
    obtain ⟨k, hk, h⟩ := h
    rw [getItem_ok] at hk
    rw [exceptBind_ok] at h
    obtain ⟨s, hs, h⟩ := h
    rw [getItem_ok] at hs
    rw [exceptBind_ok] at h
    obtain ⟨nl, hnl, h⟩ := h
    rw [getItem_ok] at hnl
    rw [exceptBind_ok] at h
    obtain ⟨blk, hblk, h⟩ := h
    rw [EncoderBlock2d.init_ok_enc] at hblk
    obtain ⟨hnlr, hblk⟩ := hblk
    rw [exceptMap_ok] at h
    obtain ⟨rest, hrest, hl⟩ := h
    subst hnlr
    have hds : (dil = true → s = 1) ∧ dilation = (if dil then (2:Int)^n else 1) := by
      cases dil
      · simp only [Bool.false_eq_true, if_false] at hd ⊢
        exact ⟨fun h => by simp at h, by injection hd with hd; exact hd.symm⟩
      · simp only [if_true] at hd ⊢
        rw [exceptBind_ok] at hd
        obtain ⟨s2, hs2, hd⟩ := hd
        rw [getItem_ok] at hs2
        rw [hs] at hs2
        injection hs2 with hs2
        subst hs2
        by_cases h1 : s = 1
        · subst h1
          simp at hd
          exact ⟨fun _ => rfl, hd.symm⟩
        · simp [h1] at hd
    refine ⟨k, s, rest, hk, hs, hnl, hds.1, hrest, ?_⟩
    rw [← hl, hblk, hds.2]
    rfl
  · rintro ⟨k, s, rest, hk, hs, hnl, hdil1, hrest, hl⟩
    subst hl
    unfold Encoder2d.loop
    have hgk : getItem ks n = .ok k := getItem_ok.mpr hk
    have hgs : getItem ss n = .ok s := getItem_ok.mpr hs
    have hgn : getItem nls n = .ok "relu" := getItem_ok.mpr hnl
    have hd : (if dil then
        (getItem ss n).bind fun s =>
          if s = 1 then Except.ok ((2:Int) ^ n)
          else Except.error "stride must be 1 when dilated convolution."
      else Except.ok 1) = .ok (if dil then (2:Int)^n else 1) := by
      cases dil
      · simp
      · simp only [if_true]
        rw [hgs, hdil1 rfl]
        simp [Except.bind]
    rw [hd]
    simp only [Except.bind]
    rw [hgk, hgs, hgn]
    simp only [Except.bind]
    rw [show EncoderBlock2d.init (ch.getD n 0) (ch.getD (n+1) 0) k (some s)
        (if dil then (2:Int)^n else 1) sep "relu" =
        .ok ⟨ch.getD n 0, ch.getD (n+1) 0, k, s, (if dil then (2:Int)^n else 1), sep, "relu"⟩ from
      EncoderBlock2d.init_ok_enc.mpr ⟨rfl, rfl⟩]
    simp only [Except.bind]
    rw [hrest]
    simp [Except.map]

theorem Decoder2d.loop_succ_iff_dec {ch : List Nat} {ks ss : List Int} {nls : List String}
    {dil sep : Bool} {N n rem : Nat} {l : List DecoderBlock2d} :
    Decoder2d.loop ch ks ss nls dil sep N n (rem+1) = .ok l ↔
      ∃ k s nl rest, ks[n]? = some k ∧ ss[n]? = some s ∧ nls[n]? = some nl ∧
        (nl = "relu" ∨ nl = "sigmoid") ∧ (dil = true → s = 1) ∧
        Decoder2d.loop ch ks ss nls dil sep N (n+1) rem = .ok rest ∧
        l = ⟨ch.getD n 0, ch.getD (n+1) 0 / 2, k, s,
          (if dil then (2:Int)^(N - n - 1) else 1), sep, nl⟩ :: rest := by
  constructor
  · intro h
    unfold Decoder2d.loop at h
    rw [exceptBind_ok] at h
    obtain ⟨dilation, hd, h⟩ := h
    rw [exceptBind_ok] at h
    obtain ⟨k, hk, h⟩ := h
    rw [getItem_ok] at hk
    rw [exceptBind_ok] at h
    obtain ⟨s, hs, h⟩ := h
    rw [getItem_ok] at hs
    rw [exceptBind_ok] at h
    obtain ⟨nl, hnl, h⟩ := h
    rw [getItem_ok] at hnl
    rw [exceptBind_ok] at h
    obtain ⟨blk, hblk, h⟩ := h
    rw [DecoderBlock2d.init_ok_dec] at hblk
    obtain ⟨hnlr, hblk⟩ := hblk
    rw [exceptMap_ok] at h
    obtain ⟨rest, hrest, hl⟩ := h
    have hds : (dil = true → s = 1) ∧ dilation = (if dil then (2:Int)^(N - n - 1) else 1) := by
      cases dil
      · simp only [Bool.false_eq_true, if_false] at hd ⊢
        exact ⟨fun h => by simp at h, by injection hd with hd; exact hd.symm⟩
      · simp only [if_true] at hd ⊢
        rw [exceptBind_ok] at hd
        obtain ⟨s2, hs2, hd⟩ := hd
        rw [getItem_ok] at hs2
        rw [hs] at hs2
        injection hs2 with hs2
        subst hs2
        by_cases h1 : s = 1
        · subst h1
          simp at hd
          exact ⟨fun _ => rfl, hd.symm⟩
        · simp [h1] at hd
    refine ⟨k, s, nl, rest, hk, hs, hnl, hnlr, hds.1, hrest, ?_⟩
    rw [← hl, hblk, hds.2]
    rfl
  · rintro ⟨k, s, nl, rest, hk, hs, hnl, hnlv, hdil1, hrest, hl⟩
    subst hl
    unfold Decoder2d.loop
    have hgk : getItem ks n = .ok k := getItem_ok.mpr hk
    have hgs : getItem ss n = .ok s := getItem_ok.mpr hs
    have hgn : getItem nls n = .ok nl := getItem_ok.mpr hnl
    have hd : (if dil then
        (getItem ss n).bind fun s =>
          if s = 1 then Except.ok ((2:Int) ^ (N - n - 1))
          else Except.error "stride must be 1 when dilated convolution."
      else Except.ok 1) = .ok (if dil then (2:Int)^(N - n - 1) else 1) := by
      cases dil
      · simp
      · simp only [if_true]
        rw [hgs, hdil1 rfl]
        simp [Except.bind]
    rw [hd]
    simp only [Except.bind]
    rw [hgk, hgs, hgn]
    simp only [Except.bind]
    rw [show DecoderBlock2d.init (ch.getD n 0) (ch.getD (n+1) 0 / 2) k (some s)
        (if dil then (2:Int)^(N - n - 1) else 1) sep nl =
        .ok ⟨ch.getD n 0, ch.getD (n+1) 0 / 2, k, s,
          (if dil then (2:Int)^(N - n - 1) else 1), sep, nl⟩ from
      DecoderBlock2d.init_ok_dec.mpr ⟨hnlv, rfl⟩]
    simp only [Except.bind]
    rw [hrest]
    simp [Except.map]

/-- Per-stage description of a successfully built encoder net. -/
theorem Encoder2d.loop_spec_enc {ch : List Nat} {ks ss : List Int} {nls : List String}
    {dil sep : Bool} : ∀ {rem n : Nat} {l : List EncoderBlock2d},
    Encoder2d.loop ch ks ss nls dil sep n rem = .ok l →
    l.length = rem ∧ ∀ j, j < rem → ∃ k s, ss[n+j]? = some s ∧ (dil = true → s = 1) ∧
      l[j]? = some ⟨ch.getD (n+j) 0, ch.getD (n+j+1) 0, k, s,
        (if dil then (2:Int)^(n+j) else 1), sep, "relu"⟩
  | 0, n, l => by
    intro h
    unfold Encoder2d.loop at h
    injection h with h
    subst h
    exact ⟨rfl, fun j hj => absurd hj (by omega)⟩
  | rem+1, n, l => by
    intro h
    rw [Encoder2d.loop_succ_iff_enc] at h
    obtain ⟨k, s, rest, hk, hs, hnl, hdil1, hrest, hl⟩ := h
    obtain ⟨hlen, hspec⟩ := Encoder2d.loop_spec_enc hrest
    subst hl
    refine ⟨by simp [hlen], fun j hj => ?_⟩
    match j with
    | 0 => exact ⟨k, s, by simpa using hs, hdil1, by simp⟩
    | j+1 =>
      obtain ⟨k2, s2, h1, h2, h3⟩ := hspec j (by omega)
      have e1 : n + 1 + j = n + (j + 1) := by omega
      rw [e1] at h1 h3
      exact ⟨k2, s2, h1, h2, by simpa using h3⟩

/-- Per-stage description of a successfully built decoder net. -/
theorem Decoder2d.loop_spec_dec {ch : List Nat} {ks ss : List Int} {nls : List String}
    {dil sep : Bool} {N : Nat} : ∀ {rem n : Nat} {l : List DecoderBlock2d},
    Decoder2d.loop ch ks ss nls dil sep N n rem = .ok l →
    l.length = rem ∧ ∀ j, j < rem → ∃ k s nl, ss[n+j]? = some s ∧ (dil = true → s = 1) ∧
      (nl = "relu" ∨ nl = "sigmoid") ∧
      l[j]? = some ⟨ch.getD (n+j) 0, ch.getD (n+j+1) 0 / 2, k, s,
        (if dil then (2:Int)^(N - (n+j) - 1) else 1), sep, nl⟩
  | 0, n, l => by
    intro h
    unfold Decoder2d.loop at h
    injection h with h
    subst h
    exact ⟨rfl, fun j hj => absurd hj (by omega)⟩
  | rem+1, n, l => by
    intro h
    rw [Decoder2d.loop_succ_iff_dec] at h
    obtain ⟨k, s, nl, rest, hk, hs, hnl, hnlv, hdil1, hrest, hl⟩ := h
    obtain ⟨hlen, hspec⟩ := Decoder2d.loop_spec_dec hrest
    subst hl
    refine ⟨by simp [hlen], fun j hj => ?_⟩
    match j with
    | 0 => exact ⟨k, s, nl, by simpa using hs, hdil1, hnlv, by simp⟩
    | j+1 =>
      obtain ⟨k2, s2, nl2, h1, h2, h3, h4⟩ := hspec j (by omega)
      have e1 : n + 1 + j = n + (j + 1) := by omega
      rw [e1] at h1 h4
      exact ⟨k2, s2, nl2, h1, h2, h3, by simpa using h4⟩

/-- A successful decoder construction loop splits into a prefix loop building
`l.take r1` and a suffix loop building `l.drop r1`. -/
theorem Decoder2d.loop_split {ch : List Nat} {ks ss : List Int} {nls : List String}
    {dil sep : Bool} {N : Nat} : ∀ (r1 r2 : Nat) {n : Nat} {l : List DecoderBlock2d},
    Decoder2d.loop ch ks ss nls dil sep N n (r1 + r2) = .ok l →
    Decoder2d.loop ch ks ss nls dil sep N n r1 = .ok (l.take r1) ∧
      Decoder2d.loop ch ks ss nls dil sep N (n + r1) r2 = .ok (l.drop r1)
  | 0, r2, n, l => by
    intro h
    rw [Nat.zero_add] at h
    rw [Nat.add_zero]
    exact ⟨by unfold Decoder2d.loop; rfl, by simpa using h⟩
  | r1+1, r2, n, l => by
    intro h
    rw [show r1 + 1 + r2 = (r1 + r2) + 1 from by omega] at h
    rw [Decoder2d.loop_succ_iff_dec] at h
    obtain ⟨k, s, nl, rest, hk, hs, hnl, hnlv, hdil1, hrest, hl⟩ := h
    obtain ⟨ih1, ih2⟩ := Decoder2d.loop_split r1 r2 hrest
    subst hl
    constructor
    · rw [List.take_succ_cons]
      exact Decoder2d.loop_succ_iff_dec.mpr ⟨k, s, nl, rest.take r1, hk, hs, hnl, hnlv, hdil1, ih1, rfl⟩
    · rw [List.drop_succ_cons, show n + (r1 + 1) = n + 1 + r1 from by omega]
      exact ih2

/-- Inversion of `Encoder2d.__init__`. -/
theorem Encoder2d.init_ok_iff_enc {ch : List Nat} {ksArg : Arg Int} {st : Option (Arg Int)}
    {dil sep : Bool} {nlArg : Arg String} {enc : Encoder2d} :
    Encoder2d.init ch ksArg st dil sep nlArg = .ok enc ↔
      ∃ net, Encoder2d.loop ch (ksArg.broadcast (ch.length - 1))
          (resolveStride ksArg st (ch.length - 1)) (nlArg.broadcast (ch.length - 1))
          dil sep 0 (ch.length - 1) = .ok net ∧
        enc = ⟨ch.length - 1, net⟩ := by
  unfold Encoder2d.init
  rw [exceptMap_ok]
  constructor
  · rintro ⟨net, h1, h2⟩
    exact ⟨net, h1, h2.symm⟩
  · rintro ⟨net, h1, h2⟩
    exact ⟨net, h1, h2.symm⟩

/-- Inversion of `Decoder2d.__init__`. -/
theorem Decoder2d.init_ok_iff_dec {ch : List Nat} {ksArg : Arg Int} {st : Option (Arg Int)}
    {dil sep : Bool} {nlArg : Arg String} {dec : Decoder2d} :
    Decoder2d.init ch ksArg st dil sep nlArg = .ok dec ↔
      ∃ net, Decoder2d.loop ch (ksArg.broadcast (ch.length - 1))
          (resolveStride ksArg st (ch.length - 1)) (nlArg.broadcast (ch.length - 1))
          dil sep (ch.length - 1) 0 (ch.length - 1) = .ok net ∧
        dec = ⟨ch.length - 1, net⟩ := by
  unfold Decoder2d.init
  rw [exceptMap_ok]
  constructor
  · rintro ⟨net, h1, h2⟩
    exact ⟨net, h1, h2.symm⟩
  · rintro ⟨net, h1, h2⟩
    exact ⟨net, h1, h2.symm⟩

/-- Inversion of `UNet2d.__init__`. -/
theorem UNet2d.init_ok_iff_unet {ch : List Nat} {ksArg : Arg Int} {st : Option (Arg Int)}
    {dil sep : Bool} {ne nd : Arg String} {oc : Option Nat} {ist : StateDict} {m : UNet2d} :
    UNet2d.init ch ksArg st dil sep ne nd oc ist = .ok m ↔
      ∃ enc dec, Encoder2d.init ch ksArg st dil sep ne = .ok enc ∧
        Decoder2d.init (UNet2d.channelsDec ch oc) ksArg st dil sep nd = .ok dec ∧
        m = { channels := ch, kernel_size := ksArg, stride := st, dilated := dil,
              separable := sep, nonlinear_enc := ne, nonlinear_dec := nd,
              out_channels := oc, encoder := enc, bottleneck := ch.getLastD 0,
              decoder := dec, state := ist } := by
  unfold UNet2d.init
  rw [exceptBind_ok]
  constructor
  · rintro ⟨enc, h1, h⟩
    rw [exceptBind_ok] at h
    obtain ⟨dec, h2, h3⟩ := h
    injection h3 with h3
    exact ⟨enc, dec, h1, h2, h3.symm⟩
  · rintro ⟨enc, dec, h1, h2, h3⟩
    refine ⟨enc, h1, ?_⟩
    rw [exceptBind_ok]
    exact ⟨dec, h2, by rw [h3]⟩

/-! ### Running the stacks at shape level -/

/-- Joint description of building and running an encoder suffix with a
uniform stride `s`: when `s` divides the input extent `s^rem * m`, each stage
divides the extent by `s` and the channels follow the `channels` list. -/
theorem Encoder2d.loop_run_enc {ch : List Nat} {ks ss : List Int} {nls : List String}
    {dil sep : Bool} {s : Int} (hs : 1 ≤ s) :
    ∀ {rem n : Nat} {l : List EncoderBlock2d},
    (∀ i, n ≤ i → i < n + rem → ss[i]? = some s) →
    Encoder2d.loop ch ks ss nls dil sep n rem = .ok l →
    ∀ (b : Nat) (m : Int),
      Encoder2d.runNet l ⟨b, ch.getD n 0, s ^ rem * m⟩ =
        .ok (⟨b, ch.getD (n + rem) 0, m⟩,
          (List.range rem).map fun j => ⟨b, ch.getD (n + j + 1) 0, s ^ (rem - 1 - j) * m⟩)
  | 0, n, l => by
    intro hss h b m
    unfold Encoder2d.loop at h
    injection h with h
    subst h
    unfold Encoder2d.runNet
    simp
  | rem+1, n, l => by
    intro hss h b m
    rw [Encoder2d.loop_succ_iff_enc] at h
    obtain ⟨k, s2, rest, hk, hs2, hnl, hdil1, hrest, hl⟩ := h
    have hs2s : s2 = s := by
      have hsn := hss n (le_refl n) (by omega)
      rw [hsn] at hs2
      injection hs2 with h2
      exact h2.symm
    rw [hs2s] at hl
    subst hl
    unfold Encoder2d.runNet
    rw [EncoderBlock2d.forward_ok rfl]
    simp only [Except.bind]
    have hsz : encOutSize (s ^ (rem + 1) * m) k s (if dil then (2:Int)^n else 1)
        = s ^ rem * m := by
      rw [show s ^ (rem + 1) * m = s * (s ^ rem * m) from by ring]
      exact encOutSize_of_dvd hs _ _ _
    rw [hsz]
    rw [Encoder2d.loop_run_enc hs (fun i h1 h2 => hss i (by omega) (by omega)) hrest b m]
    simp only [Except.map]
    rw [List.range_succ_eq_map, List.map_cons, List.map_map]
    refine congrArg Except.ok (Prod.ext ?_ ?_)
    · rw [show n + 1 + rem = n + (rem + 1) from by omega]
    · simp only
      refine congrArg₂ List.cons ?_ ?_
      · norm_num
      · refine List.map_congr_left fun j hj => ?_
        simp only [Function.comp]
        rw [show n + 1 + j + 1 = n + (j + 1) + 1 from by omega,
          show rem - 1 - j = rem + 1 - 1 - (j + 1) from by omega]

/-- The input followed by the skip list of a successful encoder run always
ends with the returned bottleneck input. -/
theorem Encoder2d.runNet_last :
    ∀ {net : List EncoderBlock2d} {x out : Shape} {skips : List Shape},
    Encoder2d.runNet net x = .ok (out, skips) → (x :: skips).getLast? = some out
  | [], x, out, skips => by
    intro h
    unfold Encoder2d.runNet at h
    injection h with h
    injection h with h1 h2
    subst h1
    subst h2
    simp
  | blk :: rest, x, out, skips => by
    intro h
    unfold Encoder2d.runNet at h
    rw [exceptBind_ok] at h
    obtain ⟨x1, hx1, h⟩ := h
    rw [exceptMap_ok] at h
    obtain ⟨⟨out2, skips2⟩, hrun, hpair⟩ := h
    injection hpair with hA hB
    subst hA
    subst hB
    rw [List.getLast?_cons_cons]
    exact Encoder2d.runNet_last hrun

/-- Generic facts about a successful encoder forward run: one skip per stage,
and each skip's channel count is its block's `out_channels`. -/
theorem Encoder2d.runNet_spec :
    ∀ {net : List EncoderBlock2d} {x out : Shape} {skips : List Shape},
    Encoder2d.runNet net x = .ok (out, skips) →
    skips.length = net.length ∧
    (∀ j, j < net.length →
      skips[j]?.map Shape.channels = (net[j]?).map EncoderBlock2d.out_channels)
  | [], x, out, skips => by
    intro h
    unfold Encoder2d.runNet at h
    injection h with h
    injection h with h1 h2
    subst h1
    subst h2
    exact ⟨rfl, fun j hj => absurd hj (by simp)⟩
  | blk :: rest, x, out, skips => by
    intro h
    unfold Encoder2d.runNet at h
    rw [exceptBind_ok] at h
    obtain ⟨x1, hx1, h⟩ := h
    rw [exceptMap_ok] at h
    obtain ⟨⟨out2, skips2⟩, hrun, hpair⟩ := h
    injection hpair with hA hB
    subst hA
    subst hB
    obtain ⟨ih1, ih2⟩ := Encoder2d.runNet_spec hrun
    have hx1c : x1.channels = blk.out_channels := by
      unfold EncoderBlock2d.forward at hx1
      by_cases hc : x.channels = blk.in_channels <;> simp [hc] at hx1
      rw [← hx1]
    refine ⟨by simp [ih1], fun j hj => ?_⟩
    match j with
    | 0 => simp [hx1c]
    | j+1 =>
      have hj2 : j < rest.length := by
        simp only [List.length_cons] at hj
        omega
      simpa using ih2 j hj2

/-- Joint description of building and running a decoder segment with a
uniform stride `s`: each stage multiplies the spatial extent by `s`, the
channel counts follow the (doubled) decoder channel plan `chd` via the base
plan `bch`, and every consumed skip tensor matches exactly. -/
theorem Decoder2d.loop_run_dec {chd : List Nat} {ks ss : List Int} {nls : List String}
    {dil sep : Bool} {N : Nat} {skipRev : List Shape} {s : Int} {bch : Nat → Nat}
    {b : Nat} {m : Int} (hs : 1 ≤ s)
    (hchd : ∀ i, 1 ≤ i → i ≤ N → chd.getD i 0 = 2 * bch i)
    (hskip : ∀ i, 1 ≤ i → i < N → skipRev[i]? = some ⟨b, bch i, s ^ i * m⟩) :
    ∀ (rem n : Nat) {l : List DecoderBlock2d}, n + rem ≤ N →
    (∀ i, n ≤ i → i < n + rem → ss[i]? = some s) →
    Decoder2d.loop chd ks ss nls dil sep N n rem = .ok l →
    Decoder2d.go skipRev l n ⟨b, (if n = 0 then chd.getD 0 0 else bch n), s ^ n * m⟩ =
      .ok ⟨b, (if n + rem = 0 then chd.getD 0 0 else bch (n + rem)), s ^ (n + rem) * m⟩
  | 0, n, l => by
    intro hle hss h
    unfold Decoder2d.loop at h
    injection h with h
    subst h
    unfold Decoder2d.go
    rw [Nat.add_zero]
  | rem+1, n, l => by
    intro hle hss h
    rw [Decoder2d.loop_succ_iff_dec] at h
    obtain ⟨k, s2, nl, rest, hk, hs2, hnl, hnlv, hdil1, hrest, hl⟩ := h
    have hs2s : s2 = s := by
      have hsn := hss n (le_refl n) (by omega)
      rw [hsn] at hs2
      injection hs2 with h2
      exact h2.symm
    rw [hs2s] at hl
    subst hl
    unfold Decoder2d.go
    have hout : chd.getD (n+1) 0 / 2 = bch (n+1) := by
      rw [hchd (n+1) (by omega) (by omega)]
      omega
    have hsz : decOutSize (s ^ n * m) k s (if dil then (2:Int)^(N - n - 1) else 1)
        = s ^ (n+1) * m := by
      rw [decOutSize_eq]
      ring
    have hstep : (if n = 0 then
        DecoderBlock2d.forward ⟨chd.getD n 0, chd.getD (n+1) 0 / 2, k, s,
          (if dil then (2:Int)^(N - n - 1) else 1), sep, nl⟩
          ⟨b, (if n = 0 then chd.getD 0 0 else bch n), s ^ n * m⟩ none
      else (getItem skipRev n).bind fun sk =>
        DecoderBlock2d.forward ⟨chd.getD n 0, chd.getD (n+1) 0 / 2, k, s,
          (if dil then (2:Int)^(N - n - 1) else 1), sep, nl⟩
          ⟨b, (if n = 0 then chd.getD 0 0 else bch n), s ^ n * m⟩ (some sk)) =
        .ok ⟨b, bch (n + 1), s ^ (n + 1) * m⟩ := by
      match n, hle, hout, hsz with
      | 0, hle, hout, hsz =>
        rw [if_pos rfl]
        refine (DecoderBlock2d.forward_none_ok ?_).trans ?_
        · simp
        · rw [hsz, hout]
      | n'+1, hle, hout, hsz =>
        rw [if_neg (Nat.succ_ne_zero n')]
        rw [getItem_ok.mpr (hskip (n'+1) (by omega) (by omega))]
        simp only [Except.bind]
        refine (DecoderBlock2d.forward_some_ok ?_ ?_ ?_).trans ?_
        · rfl
        · rfl
        · simp only [if_neg (Nat.succ_ne_zero n')]
          rw [hchd (n'+1) (by omega) (by omega)]
          omega
        · rw [hsz, hout]
    rw [hstep]
    simp only [Except.bind]
    have hnext := Decoder2d.loop_run_dec hs hchd hskip rem (n+1)
      (by omega) (fun i h1 h2 => hss i (by omega) (by omega)) hrest
    rw [if_neg (Nat.succ_ne_zero n)] at hnext
    rw [hnext]
    rw [show n + 1 + rem = n + (rem + 1) from by omega]

/-- Source `Decoder2d.go` never reads entry 0 of the skip list when started at a
positive stage index. -/
theorem Decoder2d.go_pos_skip_eq {a b : Shape} {rest : List Shape} :
    ∀ {net : List DecoderBlock2d} {n : Nat} {x : Shape}, 1 ≤ n →
    Decoder2d.go (a :: rest) net n x = Decoder2d.go (b :: rest) net n x
  | [], n, x => fun _ => rfl
  | blk :: net', n, x => by
    intro hn
    unfold Decoder2d.go
    have hif : (if n = 0 then blk.forward x none
        else (getItem (a :: rest) n).bind fun sk => blk.forward x (some sk)) =
        (if n = 0 then blk.forward x none
        else (getItem (b :: rest) n).bind fun sk => blk.forward x (some sk)) := by
      rw [if_neg (by omega), if_neg (by omega)]
      have hg : getItem (a :: rest) n = getItem (b :: rest) n := by
        unfold getItem
        match n, hn with
        | n+1, _ => simp
      rw [hg]
    rw [hif]
    cases hstep : (if n = 0 then blk.forward x none
        else (getItem (b :: rest) n).bind fun sk => blk.forward x (some sk)) with
    | error e => simp [Except.bind]
    | ok x1 =>
      simp only [Except.bind]
      exact Decoder2d.go_pos_skip_eq (by omega)

/-- Source `Decoder2d.forward` does not depend on the first entry of the skip
list: stage 0 takes no skip argument. -/
theorem Decoder2d.go_head_irrelevant {a b : Shape} {rest : List Shape}
    (net : List DecoderBlock2d) (x : Shape) :
    Decoder2d.go (a :: rest) net 0 x = Decoder2d.go (b :: rest) net 0 x := by
  cases net with
  | nil => rfl
  | cons blk net' =>
    unfold Decoder2d.go
    simp only [if_pos rfl]
    cases hstep : blk.forward x none with
    | error e => simp [Except.bind]
    | ok x1 =>
      simp only [Except.bind]
      exact Decoder2d.go_pos_skip_eq (by omega)

/-! ### The decoder channel plan -/

theorem UNet2d.channelsDecBase_length {ch : List Nat} (h : 1 ≤ ch.length)
    (oc : Option Nat) : (UNet2d.channelsDecBase ch oc).length = ch.length := by
  cases oc
  · simp [UNet2d.channelsDecBase]
  · simp [UNet2d.channelsDecBase]
    omega

/-- Entry `i < len - 1` of the base decoder plan is `channels[len - 1 - i]`
(the reversed encoder sequence; the optional override only touches the last
entry). -/
theorem UNet2d.channelsDecBase_getElem?_lt {ch : List Nat} {oc : Option Nat} {i : Nat}
    (hi : i < ch.length - 1) :
    (UNet2d.channelsDecBase ch oc)[i]? = ch[ch.length - 1 - i]? := by
  cases oc with
  | none =>
    simp only [UNet2d.channelsDecBase]
    exact List.getElem?_reverse (by omega)
  | some o =>
    simp only [UNet2d.channelsDecBase]
    rw [List.getElem?_append_left (by simp; omega)]
    rw [List.getElem?_reverse (by simp; omega)]
    rw [List.getElem?_drop]
    congr 1
    simp
    omega

/-- The last entry of the base decoder plan is the output override, or the
first encoder channel count when no override is given. -/
theorem UNet2d.channelsDecBase_getElem?_last {ch : List Nat} {oc : Option Nat}
    (h : 1 ≤ ch.length) :
    (UNet2d.channelsDecBase ch oc)[ch.length - 1]? = some (oc.getD (ch.getD 0 0)) := by
  cases oc with
  | none =>
    simp only [UNet2d.channelsDecBase, Option.getD]
    rw [List.getElem?_reverse (by omega)]
    rw [show ch.length - 1 - (ch.length - 1) = 0 from by omega]
    exact getElem?_eq_getD (by omega) 0
  | some o =>
    simp only [UNet2d.channelsDecBase, Option.getD]
    rw [List.getElem?_append_right (by simp)]
    rw [show ch.length - 1 - ((ch.drop 1).reverse).length = 0 from by simp]
    rfl

theorem UNet2d.channelsDec_length {ch : List Nat} {oc : Option Nat} :
    (UNet2d.channelsDec ch oc).length = (UNet2d.channelsDecBase ch oc).length := by
  unfold UNet2d.channelsDec
  cases UNet2d.channelsDecBase ch oc <;> simp

theorem UNet2d.channelsDec_getD_zero {ch : List Nat} {oc : Option Nat} :
    (UNet2d.channelsDec ch oc).getD 0 0 = (UNet2d.channelsDecBase ch oc).getD 0 0 := by
  unfold UNet2d.channelsDec
  cases UNet2d.channelsDecBase ch oc <;> simp

/-- Every decoder plan entry after the first is double the base entry. -/
theorem UNet2d.channelsDec_getD_succ {ch : List Nat} {oc : Option Nat} (i : Nat) :
    (UNet2d.channelsDec ch oc).getD (i+1) 0
      = 2 * (UNet2d.channelsDecBase ch oc).getD (i+1) 0 := by
  unfold UNet2d.channelsDec
  cases UNet2d.channelsDecBase ch oc with
  | nil => simp
  | cons c rest =>
    simp only [List.getD_cons_succ]
    rw [List.getD_eq_getElem?_getD, List.getD_eq_getElem?_getD, List.getElem?_map]
    cases rest[i]? <;> simp

theorem replicate_getElem? {α : Type} {a : α} {N i : Nat} (h : i < N) :
    (List.replicate N a)[i]? = some a := by
  simp [List.getElem?_replicate, h]

theorem getLastD_eq_getD {α : Type} {l : List α} (d : α) :
    l.getLastD d = l.getD (l.length - 1) d := by
  have h2 : l.getLastD d = (l.getLast?).getD d := by
    cases l <;> simp [List.getLastD, List.getLast?]
  rw [h2, List.getLast?_eq_getElem? l, List.getD_eq_getElem?_getD]

/-! ### The end-to-end pipeline under stride divisibility -/

/-- Master description of a full `UNet2d` built with scalar kernel `kk` and
scalar stride `s`, run on an input whose spatial extent is `s^N * q`
(`N = len(channels) - 1` stages): the encoder halves...divides the extent by
`s` per stage, the bottleneck is channel-compatible, every decoder stage
input matches the skip tensor it concatenates with, and the full forward
returns the input extent. -/
theorem UNet2d.master {ch : List Nat} {kk s : Int} {dil sep : Bool}
    {ne nd : Arg String} {oc : Option Nat} {ist : StateDict} {m : UNet2d}
    (hm : UNet2d.init ch (Arg.scalar kk) (some (Arg.scalar s)) dil sep ne nd oc ist = .ok m)
    (hs : 1 ≤ s) (hch : 2 ≤ ch.length) (b : Nat) (q : Int) :
    m.encoder.forward ⟨b, ch.getD 0 0, s ^ (ch.length - 1) * q⟩ =
      .ok (⟨b, ch.getD (ch.length - 1) 0, q⟩,
        (List.range (ch.length - 1)).map fun j =>
          ⟨b, ch.getD (j + 1) 0, s ^ (ch.length - 1 - 1 - j) * q⟩) ∧
    conv1x1 m.bottleneck ⟨b, ch.getD (ch.length - 1) 0, q⟩ =
      .ok ⟨b, ch.getD (ch.length - 1) 0, q⟩ ∧
    (∀ i, 1 ≤ i → i < ch.length - 1 →
      ((List.range (ch.length - 1)).map fun j =>
          (⟨b, ch.getD (j + 1) 0, s ^ (ch.length - 1 - 1 - j) * q⟩ : Shape)).reverse[i]? =
        some ⟨b, (UNet2d.channelsDecBase ch oc).getD i 0, s ^ i * q⟩) ∧
    (∀ n, n ≤ ch.length - 1 →
      Decoder2d.go ((List.range (ch.length - 1)).map fun j =>
          (⟨b, ch.getD (j + 1) 0, s ^ (ch.length - 1 - 1 - j) * q⟩ : Shape)).reverse
        (m.decoder.net.take n) 0 ⟨b, ch.getD (ch.length - 1) 0, q⟩ =
        .ok ⟨b, (UNet2d.channelsDecBase ch oc).getD n 0, s ^ n * q⟩) ∧
    m.forward ⟨b, ch.getD 0 0, s ^ (ch.length - 1) * q⟩ =
      .ok ⟨b, oc.getD (ch.getD 0 0), s ^ (ch.length - 1) * q⟩ := by
  obtain ⟨enc, dec, hE, hD, hmeq⟩ := UNet2d.init_ok_iff_unet.mp hm
  subst hmeq
  obtain ⟨netE, hloopE, henc⟩ := Encoder2d.init_ok_iff_enc.mp hE
  subst henc
  obtain ⟨netD, hloopD, hdec⟩ := Decoder2d.init_ok_iff_dec.mp hD
  subst hdec
  have hlenchd : (UNet2d.channelsDec ch oc).length = ch.length := by
    rw [UNet2d.channelsDec_length, UNet2d.channelsDecBase_length (by omega)]
  rw [hlenchd] at hloopD
  have hbase0 : (UNet2d.channelsDecBase ch oc).getD 0 0 = ch.getD (ch.length - 1) 0 := by
    rw [List.getD_eq_getElem?_getD, List.getD_eq_getElem?_getD,
      UNet2d.channelsDecBase_getElem?_lt (by omega), Nat.sub_zero]
  have hbaseN : (UNet2d.channelsDecBase ch oc).getD (ch.length - 1) 0
      = oc.getD (ch.getD 0 0) := by
    rw [List.getD_eq_getElem?_getD, UNet2d.channelsDecBase_getElem?_last (by omega)]
    rfl
  have hbaselt : ∀ i, i < ch.length - 1 →
      (UNet2d.channelsDecBase ch oc).getD i 0 = ch.getD (ch.length - 1 - i) 0 := by
    intro i hi
    rw [List.getD_eq_getElem?_getD, List.getD_eq_getElem?_getD,
      UNet2d.channelsDecBase_getElem?_lt hi]
  -- encoder run
  have hssE : ∀ i, 0 ≤ i → i < 0 + (ch.length - 1) →
      (resolveStride (Arg.scalar kk) (some (Arg.scalar s)) (ch.length - 1))[i]? = some s := by
    intro i _ hi
    simp only [resolveStride, Arg.broadcast]
    exact replicate_getElem? (by omega)
  have hrunE := Encoder2d.loop_run_enc hs hssE hloopE b q
  simp only [Nat.zero_add] at hrunE
  have hencfwd : Encoder2d.forward ⟨ch.length - 1, netE⟩
      ⟨b, ch.getD 0 0, s ^ (ch.length - 1) * q⟩ =
      .ok (⟨b, ch.getD (ch.length - 1) 0, q⟩,
        (List.range (ch.length - 1)).map fun j =>
          ⟨b, ch.getD (j + 1) 0, s ^ (ch.length - 1 - 1 - j) * q⟩) := hrunE
  -- bottleneck
  have hbot : ch.getLastD 0 = ch.getD (ch.length - 1) 0 := getLastD_eq_getD 0
  have hconv : conv1x1 (ch.getLastD 0) ⟨b, ch.getD (ch.length - 1) 0, q⟩ =
      .ok ⟨b, ch.getD (ch.length - 1) 0, q⟩ := by
    rw [hbot]
    simp [conv1x1]
  -- skip lookups
  have hsklen : ((List.range (ch.length - 1)).map fun j =>
      (⟨b, ch.getD (j + 1) 0, s ^ (ch.length - 1 - 1 - j) * q⟩ : Shape)).length
      = ch.length - 1 := by simp
  have hskip : ∀ i, 1 ≤ i → i < ch.length - 1 →
      ((List.range (ch.length - 1)).map fun j =>
          (⟨b, ch.getD (j + 1) 0, s ^ (ch.length - 1 - 1 - j) * q⟩ : Shape)).reverse[i]? =
        some ⟨b, (UNet2d.channelsDecBase ch oc).getD i 0, s ^ i * q⟩ := by
    intro i h1 h2
    rw [List.getElem?_reverse (by rw [hsklen]; omega)]
    rw [hsklen]
    rw [List.getElem?_map]
    rw [List.getElem?_range (by omega)]
    rw [hbaselt i h2]
    simp only [Option.map_some']
    rw [show ch.length - 1 - 1 - i + 1 = ch.length - 1 - i from by omega,
      show ch.length - 1 - 1 - (ch.length - 1 - 1 - i) = i from by omega]
  -- decoder runs
  have hchd : ∀ i, 1 ≤ i → i ≤ ch.length - 1 →
      (UNet2d.channelsDec ch oc).getD i 0
        = 2 * (UNet2d.channelsDecBase ch oc).getD i 0 := by
    intro i h1 _
    match i, h1 with
    | i+1, _ => exact UNet2d.channelsDec_getD_succ i
  have hgo : ∀ n, n ≤ ch.length - 1 →
      Decoder2d.go ((List.range (ch.length - 1)).map fun j =>
          (⟨b, ch.getD (j + 1) 0, s ^ (ch.length - 1 - 1 - j) * q⟩ : Shape)).reverse
        (netD.take n) 0 ⟨b, ch.getD (ch.length - 1) 0, q⟩ =
        .ok ⟨b, (UNet2d.channelsDecBase ch oc).getD n 0, s ^ n * q⟩ := by
    intro n hn
    match n, hn with
    | 0, _ =>
      show Decoder2d.go _ (netD.take 0) 0 _ = _
      simp only [List.take_zero]
      unfold Decoder2d.go
      rw [hbase0]
      norm_num
    | n'+1, hn =>
      have hsplit := Decoder2d.loop_split (n'+1) (ch.length - 1 - (n'+1))
        (by rw [show n'+1 + (ch.length - 1 - (n'+1)) = ch.length - 1 from by omega]
            exact hloopD)
      have hrun := Decoder2d.loop_run_dec (N := ch.length - 1) hs hchd hskip
        (n'+1) 0 (by omega)
        (fun i hA hB => hssE i hA (by omega)) hsplit.1
      rw [if_pos rfl, UNet2d.channelsDec_getD_zero, hbase0, pow_zero, one_mul,
        Nat.zero_add, if_neg (Nat.succ_ne_zero n')] at hrun
      exact hrun
  -- full forward
  have hfull0 : (Encoder2d.forward ⟨ch.length - 1, netE⟩
        ⟨b, ch.getD 0 0, s ^ (ch.length - 1) * q⟩).bind
      (fun p => (conv1x1 (ch.getLastD 0) p.1).bind fun x =>
        Decoder2d.forward ⟨(UNet2d.channelsDec ch oc).length - 1, netD⟩ x p.2.reverse)
      = .ok ⟨b, oc.getD (ch.getD 0 0), s ^ (ch.length - 1) * q⟩ := by
    rw [hencfwd]
    simp only [Except.bind]
    rw [hconv]
    simp only [Except.bind]
    unfold Decoder2d.forward
    have htake : netD.take (ch.length - 1) = netD := by
      obtain ⟨hlen, _⟩ := Decoder2d.loop_spec_dec hloopD
      exact List.take_of_length_le (by omega)
    have hlast := hgo (ch.length - 1) (le_refl _)
    rw [htake] at hlast
    rw [hlast, hbaseN]
  exact ⟨hencfwd, hconv, hskip, hgo, hfull0⟩

/-! ### Claims -/

/-- Claim C1 (amended): for the Encoder Block with kernel `Kh`, stride
`Sh >= 1` and dilation `Dh` (effective kernel `Kh_eff`), the pad-then-convolve
forward pass produces output spatial size `ceil(H / Sh)` **whenever
`(H - Kh_eff) mod Sh = 0`** (in particular for stride 1, and for the default
`stride = kernel_size` whenever `Sh` divides `H`); the claim's unconditional
version is refuted by `enc_same_with_stride_cex`. -/
theorem enc_same_with_stride {blk : EncoderBlock2d} {b c : Nat} {H : Int}
    (hs : 1 ≤ blk.stride) (hc : c = blk.in_channels)
    (hmod : (H - effKernel blk.kernel_size blk.dilation) % blk.stride = 0) :
    blk.forward ⟨b, c, H⟩ =
      .ok ⟨b, blk.out_channels, (H + blk.stride - 1) / blk.stride⟩ := by
  rw [EncoderBlock2d.forward_ok hc]
  have hd : blk.stride ∣ (H - effKernel blk.kernel_size blk.dilation) :=
    Int.dvd_of_emod_eq_zero hmod
  have hd2 : (effKernel blk.kernel_size blk.dilation - H) % blk.stride = 0 := by
    rw [show effKernel blk.kernel_size blk.dilation - H
        = -(H - effKernel blk.kernel_size blk.dilation) from by ring]
    exact Int.emod_eq_zero_of_dvd (dvd_neg.mpr hd)
  have hout : encOutSize H blk.kernel_size blk.stride blk.dilation
      = (H + blk.stride - 1) / blk.stride := by
    unfold encOutSize
    rw [padding_height_eq, hd2]
    rw [show H + (effKernel blk.kernel_size blk.dilation - 1 - 0)
          - effKernel blk.kernel_size blk.dilation = H - 1 from by ring]
    rw [show H + blk.stride - 1 = H - 1 + 1 * blk.stride from by ring]
    rw [Int.add_mul_ediv_right _ _ (by omega : blk.stride ≠ 0)]
  rw [hout]

/-- Claim C1, counterexample: an encoder block with `kernel_size=2`,
`stride=2`, `dilation=1` on input height `H = 3` pads by 0 and outputs
height 1, while `ceil(3 / 2) = 2`: the claimed identity
`H_out = ceil(H / Sh)` fails as stated. -/
theorem enc_same_with_stride_cex :
    (EncoderBlock2d.init 1 1 2 (some 2) 1 false "relu").bind
        (fun blk => blk.forward ⟨1, 1, 3⟩) = .ok ⟨1, 1, 1⟩ ∧
    ((3:Int) + 2 - 1) / 2 = 2 ∧ (1:Int) ≠ 2 :=
  ⟨by rfl, by decide, by decide⟩

/-- Witness for `enc_same_with_stride` at `kernel_size=3, stride=2, H=7`. -/
theorem enc_same_with_stride_wit :
    (1:Int) ≤ (2:Int) ∧ ((7:Int) - effKernel 3 1) % 2 = 0 ∧
    EncoderBlock2d.forward ⟨1, 1, 3, 2, 1, false, "relu"⟩ ⟨1, 1, 7⟩ =
      .ok ⟨1, 1, ((7:Int) + 2 - 1) / 2⟩ :=
  ⟨by decide, by decide, enc_same_with_stride (by decide) rfl (by decide)⟩

/-- Claim C4: for every input spatial size `H >= 1` with `H < Kh_eff` and
every positive stride, the encoder padding formula (floor-mod semantics)
yields a non-negative total padding amount. -/
theorem padding_nonneg {H K S D : Int} (hH : 1 ≤ H) (hK : H < effKernel K D)
    (hS : 1 ≤ S) : 0 ≤ padding_height H K S D := by
  rw [padding_height_eq]
  have h1 : (effKernel K D - H) % S ≤ effKernel K D - H :=
    emod_le_self_of_nonneg (by omega) (by omega)
  omega

/-- Witness for `padding_nonneg` at `H=1, K=3, S=2, D=1`. -/
theorem padding_nonneg_wit :
    (1:Int) ≤ 1 ∧ (1:Int) < effKernel 3 1 ∧ (1:Int) ≤ 2 ∧
    0 ≤ padding_height 1 3 2 1 :=
  ⟨by decide, by decide, by decide, padding_nonneg (by decide) (by decide) (by decide)⟩

/-- Claim C3 (amended): for a model built with scalar kernel and scalar
stride `s >= 1`, the forward pass maps `(batch, C_in, H, W)` to
`(batch, C_out, H, W)` **whenever every stage's stride divides its input
extent** (here: `H = s^n_blocks * q`; in particular always when `s = 1`,
e.g. for every dilated configuration); the claim's "for all H regardless of
stride" version is refuted by `forward_spatial_size_cex`. -/
theorem forward_spatial_size (ch : List Nat) (kk s : Int) (dil sep : Bool)
    (ne nd : Arg String) (oc : Option Nat) (ist : StateDict) (m : UNet2d)
    (hm : UNet2d.init ch (Arg.scalar kk) (some (Arg.scalar s)) dil sep ne nd oc ist = .ok m)
    (hs : 1 ≤ s) (hch : 2 ≤ ch.length) (b : Nat) (q : Int) :
    m.forward ⟨b, ch.getD 0 0, s ^ (ch.length - 1) * q⟩ =
      .ok ⟨b, oc.getD (ch.getD 0 0), s ^ (ch.length - 1) * q⟩ :=
  (UNet2d.master hm hs hch b q).2.2.2.2

/-- Claim C3, counterexample: `UNet2d([1,1], kernel_size=2, stride=2)` on an
input of spatial size 3 returns spatial size 2, not 3: the output spatial
size does not equal the input spatial size for all `H` and strides. -/
theorem forward_spatial_size_cex :
    (UNet2d.init [1,1] (Arg.scalar 2) (some (Arg.scalar 2)) false false
        (Arg.scalar "relu") (Arg.scalar "relu") none []).bind
      (fun m => m.forward ⟨1,1,3⟩) = .ok ⟨1,1,2⟩ ∧ (2:Int) ≠ 3 :=
  ⟨by rfl, by decide⟩

/-- Witness for `forward_spatial_size`: `UNet2d([1,2,3], 2, stride=2)` on
spatial size `8 = 2^2 * 2` returns spatial size 8. -/
theorem forward_spatial_size_wit :
    UNet2d.init [1,2,3] (Arg.scalar 2) (some (Arg.scalar 2)) false false
        (Arg.scalar "relu") (Arg.scalar "relu") none [] = .ok mEx ∧
    (1:Int) ≤ 2 ∧ 2 ≤ ([1,2,3] : List Nat).length ∧
    mEx.forward ⟨1,1,8⟩ = .ok ⟨1,1,8⟩ :=
  ⟨by rfl, by decide, by decide,
    forward_spatial_size [1,2,3] 2 2 false false (Arg.scalar "relu") (Arg.scalar "relu")
      none [] mEx (by rfl) (by decide) (by decide) 1 2⟩

/-- Claim C2 (amended): every Decoder Block crops exactly
`pad_total = Kh_eff - Sh` from the transpose-convolution output; for a model
with scalar kernel and scalar stride `s >= 1`, the decoder stage inputs
match the consumed encoder skip tensors exactly (same batch, channels and
spatial size) **whenever every stage's stride divides its input extent**
(`H = s^n_blocks * q`); the unconditional claim (for all configurations with
stride at most the effective kernel) is refuted by
`decoder_skip_misalignment_cex`. -/
theorem decoder_skip_alignment (ch : List Nat) (kk s : Int) (dil sep : Bool)
    (ne nd : Arg String) (oc : Option Nat) (ist : StateDict) (m : UNet2d)
    (hm : UNet2d.init ch (Arg.scalar kk) (some (Arg.scalar s)) dil sep ne nd oc ist = .ok m)
    (hs : 1 ≤ s) (hch : 2 ≤ ch.length) (b : Nat) (q : Int) :
    (∀ (blk : DecoderBlock2d) (x r : Shape), blk.forward x none = .ok r →
        r.h = ((x.h - 1) * blk.stride + effKernel blk.kernel_size blk.dilation)
            - dec_padding_height blk.kernel_size blk.stride blk.dilation ∧
        dec_padding_height blk.kernel_size blk.stride blk.dilation
          = effKernel blk.kernel_size blk.dilation - blk.stride) ∧
    ∃ X SK, m.encoder.forward ⟨b, ch.getD 0 0, s ^ (ch.length - 1) * q⟩ = .ok (X, SK) ∧
      ∀ n, 1 ≤ n → n < ch.length - 1 →
        ∃ y, Decoder2d.go SK.reverse (m.decoder.net.take n) 0 X = .ok y ∧
          SK.reverse[n]? = some y := by
  obtain ⟨hfwd, hconv, hskip, hgo, hfull⟩ := UNet2d.master hm hs hch b q
  constructor
  · intro blk x r h
    unfold DecoderBlock2d.forward at h
    simp only [Except.bind] at h
    by_cases hcch : x.channels = blk.in_channels
    · rw [if_pos hcch] at h
      injection h with h
      subst h
      exact ⟨rfl, rfl⟩
    · rw [if_neg hcch] at h
      exact absurd h (by simp)
  · refine ⟨_, _, hfwd, fun n h1 h2 => ?_⟩
    exact ⟨⟨b, (UNet2d.channelsDecBase ch oc).getD n 0, s ^ n * q⟩,
      hgo n (by omega), hskip n h1 h2⟩

/-- Claim C2, counterexample: `UNet2d([1,1,1], kernel_size=2, stride=2)`
(stride equal to the effective kernel at every stage) on an input of spatial
size 7: the encoder skip sizes are `[3, 1]`, decoder stage 0 produces
post-crop size 2, but the skip tensor consumed by stage 1 has size 3, so the
concatenation fails — post-crop size does not always match the skip size. -/
theorem decoder_skip_misalignment_cex :
    (UNet2d.init [1,1,1] (Arg.scalar 2) (some (Arg.scalar 2)) false false
        (Arg.scalar "relu") (Arg.scalar "relu") none []).bind
      (fun m => m.forward ⟨1,1,7⟩) = .error "cat: size mismatch" ∧
    (UNet2d.init [1,1,1] (Arg.scalar 2) (some (Arg.scalar 2)) false false
        (Arg.scalar "relu") (Arg.scalar "relu") none []).bind
      (fun m => (m.encoder.forward ⟨1,1,7⟩).bind fun p =>
        (conv1x1 m.bottleneck p.1).bind fun x =>
          (Decoder2d.go p.2.reverse (m.decoder.net.take 1) 0 x).map fun y =>
            (y.h, (p.2.reverse[1]?).map Shape.h)) = .ok (2, some 3) ∧
    (2:Int) ≠ 3 :=
  ⟨by rfl, by rfl, by decide⟩

/-- Witness for `decoder_skip_alignment`: `UNet2d([1,2,3], 2, stride=2)` on
spatial size 8; decoder stage 1 receives size 4, matching the skip. -/
theorem decoder_skip_alignment_wit :
    (1:Int) ≤ 2 ∧ 2 ≤ ([1,2,3] : List Nat).length ∧
    (Decoder2d.go [⟨1,3,2⟩, ⟨1,2,4⟩] (mEx.decoder.net.take 1) 0 ⟨1,3,2⟩ =
        .ok ⟨1,2,4⟩ ∧
      ([(⟨1,3,2⟩ : Shape), ⟨1,2,4⟩])[1]? = some ⟨1,2,4⟩) := by
  refine ⟨by decide, by decide, ?_⟩
  obtain ⟨X, SK, hXSK, hal⟩ :=
    (decoder_skip_alignment [1,2,3] 2 2 false false (Arg.scalar "relu")
      (Arg.scalar "relu") none [] mEx (by rfl) (by decide) (by decide) 1 2).2
  have hconc : mEx.encoder.forward
      ⟨1, ([1,2,3] : List Nat).getD 0 0, 2 ^ (([1,2,3] : List Nat).length - 1) * 2⟩ =
      .ok ((⟨1,3,2⟩ : Shape), [(⟨1,2,4⟩ : Shape), ⟨1,3,2⟩]) := by rfl
  rw [hconc] at hXSK
  injection hXSK with hp
  injection hp with h1 h2
  obtain ⟨y, hy1, hy2⟩ := hal 1 (by omega) (by decide)
  rw [← h2] at hy1 hy2
  rw [← h1] at hy1
  have hrev : ([(⟨1,2,4⟩ : Shape), ⟨1,3,2⟩]).reverse[1]? = some (⟨1,2,4⟩ : Shape) := by rfl
  rw [hrev] at hy2
  injection hy2 with hy2
  rw [← hy2] at hy1
  exact ⟨hy1, by rfl⟩

/-- Source `Encoder2d.__init__` is the construction loop followed by packaging. -/
theorem Encoder2d.init_unfold_enc (ch : List Nat) (ks : Arg Int) (st : Option (Arg Int))
    (dil sep : Bool) (nl : Arg String) :
    Encoder2d.init ch ks st dil sep nl =
      (Encoder2d.loop ch (ks.broadcast (ch.length - 1))
        (resolveStride ks st (ch.length - 1)) (nl.broadcast (ch.length - 1))
        dil sep 0 (ch.length - 1)).map (fun net => ⟨ch.length - 1, net⟩) := rfl

/-- Source `Decoder2d.__init__` is the construction loop followed by packaging. -/
theorem Decoder2d.init_unfold_dec (ch : List Nat) (ks : Arg Int) (st : Option (Arg Int))
    (dil sep : Bool) (nl : Arg String) :
    Decoder2d.init ch ks st dil sep nl =
      (Decoder2d.loop ch (ks.broadcast (ch.length - 1))
        (resolveStride ks st (ch.length - 1)) (nl.broadcast (ch.length - 1))
        dil sep (ch.length - 1) 0 (ch.length - 1)).map (fun net => ⟨ch.length - 1, net⟩) := rfl

/-- Claim C5: with `dilated=true` and some stage whose (resolved) stride is
not 1, construction fails fatally at construction time — in the Encoder
Stack, in the Decoder Stack, and for the whole model — and never silently
accepts the configuration; with a scalar stride argument the error is
exactly the assertion message `"stride must be 1 when dilated convolution."`. -/
theorem dilated_requires_stride_one (ch : List Nat) (ks : Arg Int)
    (st : Option (Arg Int)) (sep : Bool) (ne nd : Arg String) (oc : Option Nat)
    (ist : StateDict)
    (hbad : ∃ i, i < ch.length - 1 ∧
      (resolveStride ks st (ch.length - 1))[i]? ≠ some 1) :
    (∃ e, Encoder2d.init ch ks st true sep ne = .error e) ∧
    (∃ e, Decoder2d.init ch ks st true sep nd = .error e) ∧
    (∃ e, UNet2d.init ch ks st true sep ne nd oc ist = .error e) ∧
    (∀ (s : Int), st = some (.scalar s) → s ≠ 1 →
      Encoder2d.init ch ks st true sep ne
          = .error "stride must be 1 when dilated convolution." ∧
      Decoder2d.init ch ks st true sep nd
          = .error "stride must be 1 when dilated convolution.") := by
  obtain ⟨i, hi, hbadi⟩ := hbad
  have hencE : ∃ e, Encoder2d.init ch ks st true sep ne = .error e := by
    cases hE : Encoder2d.init ch ks st true sep ne with
    | error e => exact ⟨e, rfl⟩
    | ok enc =>
      exfalso
      obtain ⟨net, hloop, _⟩ := Encoder2d.init_ok_iff_enc.mp hE
      obtain ⟨_, hspec⟩ := Encoder2d.loop_spec_enc hloop
      obtain ⟨k, s, hss, hdil1, _⟩ := hspec i hi
      rw [Nat.zero_add] at hss
      rw [hss, hdil1 rfl] at hbadi
      exact hbadi rfl
  have hdecE : ∃ e, Decoder2d.init ch ks st true sep nd = .error e := by
    cases hD : Decoder2d.init ch ks st true sep nd with
    | error e => exact ⟨e, rfl⟩
    | ok dec =>
      exfalso
      obtain ⟨net, hloop, _⟩ := Decoder2d.init_ok_iff_dec.mp hD
      obtain ⟨_, hspec⟩ := Decoder2d.loop_spec_dec hloop
      obtain ⟨k, s, nl, hss, hdil1, _, _⟩ := hspec i hi
      rw [Nat.zero_add] at hss
      rw [hss, hdil1 rfl] at hbadi
      exact hbadi rfl
  have hunetE : ∃ e, UNet2d.init ch ks st true sep ne nd oc ist = .error e := by
    cases hU : UNet2d.init ch ks st true sep ne nd oc ist with
    | error e => exact ⟨e, rfl⟩
    | ok m =>
      exfalso
      obtain ⟨enc, dec, hE, _, _⟩ := UNet2d.init_ok_iff_unet.mp hU
      obtain ⟨e, he⟩ := hencE
      rw [hE] at he
      exact absurd he (by simp)
  refine ⟨hencE, hdecE, hunetE, fun s hst hs1 => ?_⟩
  subst hst
  obtain ⟨N', hN'⟩ : ∃ N', ch.length - 1 = N' + 1 := ⟨ch.length - 2, by omega⟩
  have hg0 : getItem (List.replicate (N' + 1) s) 0 = .ok s :=
    getItem_ok.mpr (replicate_getElem? (by omega))
  have hloopE : ∀ (ks2 : List Int) (nls : List String),
      Encoder2d.loop ch ks2 (List.replicate (N' + 1) s) nls true sep 0 (N' + 1)
        = .error "stride must be 1 when dilated convolution." := by
    intro ks2 nls
    unfold Encoder2d.loop
    rw [if_pos rfl, hg0]
    simp only [Except.bind]
    rw [if_neg hs1]
  have hloopD : ∀ (ks2 : List Int) (nls : List String) (nb : Nat),
      Decoder2d.loop ch ks2 (List.replicate (N' + 1) s) nls true sep nb 0 (N' + 1)
        = .error "stride must be 1 when dilated convolution." := by
    intro ks2 nls nb
    unfold Decoder2d.loop
    rw [if_pos rfl, hg0]
    simp only [Except.bind]
    rw [if_neg hs1]
  constructor
  · rw [Encoder2d.init_unfold_enc]
    rw [show resolveStride ks (some (Arg.scalar s)) (ch.length - 1)
        = List.replicate (ch.length - 1) s from rfl]
    rw [hN', hloopE]
    rfl
  · rw [Decoder2d.init_unfold_dec]
    rw [show resolveStride ks (some (Arg.scalar s)) (ch.length - 1)
        = List.replicate (ch.length - 1) s from rfl]
    rw [hN', hloopD]
    rfl

/-- Witness for `dilated_requires_stride_one`: `channels=[1,2]`,
`kernel_size=2`, `stride=2`, `dilated=true`. -/
theorem dilated_requires_stride_one_wit :
    (∃ i, i < ([1,2] : List Nat).length - 1 ∧
      (resolveStride (Arg.scalar 2) (some (Arg.scalar 2))
        (([1,2] : List Nat).length - 1))[i]? ≠ some 1) ∧
    ((∃ e, Encoder2d.init [1,2] (Arg.scalar 2) (some (Arg.scalar 2)) true false
        (Arg.scalar "relu") = .error e) ∧
    (∃ e, Decoder2d.init [1,2] (Arg.scalar 2) (some (Arg.scalar 2)) true false
        (Arg.scalar "relu") = .error e) ∧
    (∃ e, UNet2d.init [1,2] (Arg.scalar 2) (some (Arg.scalar 2)) true false
        (Arg.scalar "relu") (Arg.scalar "relu") none [] = .error e) ∧
    (∀ (s : Int), some (Arg.scalar 2) = some (Arg.scalar s) → s ≠ 1 →
      Encoder2d.init [1,2] (Arg.scalar 2) (some (Arg.scalar 2)) true false
          (Arg.scalar "relu")
          = .error "stride must be 1 when dilated convolution." ∧
      Decoder2d.init [1,2] (Arg.scalar 2) (some (Arg.scalar 2)) true false
          (Arg.scalar "relu")
          = .error "stride must be 1 when dilated convolution.")) := by
  have hbad : ∃ i, i < ([1,2] : List Nat).length - 1 ∧
      (resolveStride (Arg.scalar 2) (some (Arg.scalar 2))
        (([1,2] : List Nat).length - 1))[i]? ≠ some 1 := ⟨0, by decide, by decide⟩
  exact ⟨hbad, dilated_requires_stride_one [1,2] (Arg.scalar 2) (some (Arg.scalar 2))
    false (Arg.scalar "relu") (Arg.scalar "relu") none [] hbad⟩

/-- Claim C6: constructing an encoder block with any activation kind other
than `'relu'` (e.g. `'tanh'`), or a decoder block with any kind other than
`'relu'` or `'sigmoid'`, raises `NotImplementedError` at construction time;
the supported kinds succeed; and the forward passes never raise that error. -/
theorem activation_validation :
    (∀ (i o : Nat) (k : Int) (st : Option Int) (d : Int) (sep : Bool) (nl : String),
      nl ≠ "relu" →
      EncoderBlock2d.init i o k st d sep nl = .error "NotImplementedError") ∧
    (∀ (i o : Nat) (k : Int) (st : Option Int) (d : Int) (sep : Bool),
      ∃ blk, EncoderBlock2d.init i o k st d sep "relu" = .ok blk) ∧
    (∀ (i o : Nat) (k : Int) (st : Option Int) (d : Int) (sep : Bool) (nl : String),
      nl ≠ "relu" → nl ≠ "sigmoid" →
      DecoderBlock2d.init i o k st d sep nl = .error "NotImplementedError") ∧
    (∀ (i o : Nat) (k : Int) (st : Option Int) (d : Int) (sep : Bool),
      ∃ blk, DecoderBlock2d.init i o k st d sep "relu" = .ok blk) ∧
    (∀ (i o : Nat) (k : Int) (st : Option Int) (d : Int) (sep : Bool),
      ∃ blk, DecoderBlock2d.init i o k st d sep "sigmoid" = .ok blk) ∧
    (∀ (blk : EncoderBlock2d) (x : Shape),
      blk.forward x ≠ .error "NotImplementedError") ∧
    (∀ (blk : DecoderBlock2d) (x : Shape) (sk : Option Shape),
      blk.forward x sk ≠ .error "NotImplementedError") := by
  refine ⟨?_, ?_, ?_, ?_, ?_, ?_, ?_⟩
  · intro i o k st d sep nl hnl
    unfold EncoderBlock2d.init
    rw [if_neg hnl]
  · intro i o k st d sep
    exact ⟨_, by unfold EncoderBlock2d.init; rw [if_pos rfl]⟩
  · intro i o k st d sep nl hnl1 hnl2
    unfold DecoderBlock2d.init
    rw [if_neg hnl1, if_neg hnl2]
  · intro i o k st d sep
    exact ⟨_, by unfold DecoderBlock2d.init; rw [if_pos rfl]⟩
  · intro i o k st d sep
    refine ⟨⟨i, o, k, st.getD k, d, sep, "sigmoid"⟩, ?_⟩
    unfold DecoderBlock2d.init
    rw [if_neg (by decide : ("sigmoid" : String) ≠ "relu"), if_pos rfl]
  · intro blk x h
    unfold EncoderBlock2d.forward at h
    by_cases hc : x.channels = blk.in_channels
    · rw [if_pos hc] at h
      exact absurd h (by simp)
    · rw [if_neg hc] at h
      injection h with h
      exact absurd h (by decide)
  · intro blk x sk h
    unfold DecoderBlock2d.forward at h
    cases sk with
    | none =>
      simp only [Except.bind] at h
      by_cases hc : x.channels = blk.in_channels
      · rw [if_pos hc] at h
        exact absurd h (by simp)
      · rw [if_neg hc] at h
        injection h with h
        exact absurd h (by decide)
    | some sk =>
      have h2 : (cat x sk).bind (fun input =>
          if input.channels = blk.in_channels then
            Except.ok (⟨input.batch, blk.out_channels,
              decOutSize input.h blk.kernel_size blk.stride blk.dilation⟩ : Shape)
          else Except.error "channel mismatch") = Except.error "NotImplementedError" := h
      cases hcat : cat x sk with
      | error e =>
        rw [hcat] at h2
        simp only [Except.bind] at h2
        injection h2 with h2
        unfold cat at hcat
        by_cases hbh : x.batch = sk.batch ∧ x.h = sk.h
        · rw [if_pos hbh] at hcat
          exact absurd hcat (by simp)
        · rw [if_neg hbh] at hcat
          injection hcat with hcat
          rw [h2] at hcat
          exact absurd hcat (by decide)
      | ok y =>
        rw [hcat] at h2
        simp only [Except.bind] at h2
        by_cases hc : y.channels = blk.in_channels
        · rw [if_pos hc] at h2
          exact absurd h2 (by simp)
        · rw [if_neg hc] at h2
          injection h2 with h2
          exact absurd h2 (by decide)

/-- Witness for `activation_validation` at the unsupported kind `'tanh'` and
the supported kinds. -/
theorem activation_validation_wit :
    ("tanh" : String) ≠ "relu" ∧
    EncoderBlock2d.init 1 1 3 none 1 false "tanh" = .error "NotImplementedError" ∧
    (∃ blk, DecoderBlock2d.init 1 1 3 none 1 false "sigmoid" = .ok blk) :=
  ⟨by decide, activation_validation.1 1 1 3 none 1 false "tanh" (by decide),
    activation_validation.2.2.2.2.1 1 1 3 none 1 false⟩

/-- Claim C7: when `dilated=true`, encoder stage `n` (0-indexed) is built
with dilation `2^n` and decoder stage `n` with dilation
`2^(n_blocks - n - 1)`; when `dilated=false`, every stage uses dilation 1. -/
theorem stage_dilations (chE chD : List Nat) (ks : Arg Int) (st : Option (Arg Int))
    (dil sep : Bool) (ne nd : Arg String) (enc : Encoder2d) (dec : Decoder2d)
    (hE : Encoder2d.init chE ks st dil sep ne = .ok enc)
    (hD : Decoder2d.init chD ks st dil sep nd = .ok dec) :
    (∀ n, n < enc.n_blocks →
      (enc.net[n]?).map EncoderBlock2d.dilation
        = some (if dil then (2:Int)^n else 1)) ∧
    (∀ n, n < dec.n_blocks →
      (dec.net[n]?).map DecoderBlock2d.dilation
        = some (if dil then (2:Int)^(dec.n_blocks - n - 1) else 1)) := by
  obtain ⟨netE, hloopE, hencE⟩ := Encoder2d.init_ok_iff_enc.mp hE
  obtain ⟨netD, hloopD, hdecE⟩ := Decoder2d.init_ok_iff_dec.mp hD
  subst hencE
  subst hdecE
  constructor
  · intro n hn
    obtain ⟨_, hspec⟩ := Encoder2d.loop_spec_enc hloopE
    obtain ⟨k, s, _, _, hblk⟩ := hspec n hn
    rw [Nat.zero_add] at hblk
    rw [hblk]
    rfl
  · intro n hn
    obtain ⟨_, hspec⟩ := Decoder2d.loop_spec_dec hloopD
    obtain ⟨k, s, nl, _, _, _, hblk⟩ := hspec n hn
    rw [Nat.zero_add] at hblk
    rw [hblk]
    rfl

/-- Witness for `stage_dilations`: `channels=[1,1,1]` (encoder) and
`[1,2,2]` (decoder), `kernel_size=3`, `stride=1`, `dilated=true`: encoder
dilations `[1, 2]`, decoder dilations `[2, 1]`. -/
theorem stage_dilations_wit :
    Encoder2d.init [1,1,1] (Arg.scalar 3) (some (Arg.scalar 1)) true false
      (Arg.scalar "relu") = .ok encEx ∧
    Decoder2d.init [1,2,2] (Arg.scalar 3) (some (Arg.scalar 1)) true false
      (Arg.scalar "relu") = .ok decEx ∧
    (encEx.net[0]?).map EncoderBlock2d.dilation = some 1 ∧
    (encEx.net[1]?).map EncoderBlock2d.dilation = some 2 ∧
    (decEx.net[0]?).map DecoderBlock2d.dilation = some 2 ∧
    (decEx.net[1]?).map DecoderBlock2d.dilation = some 1 := by
  have h := stage_dilations [1,1,1] [1,2,2] (Arg.scalar 3) (some (Arg.scalar 1))
    true false (Arg.scalar "relu") (Arg.scalar "relu") encEx decEx (by rfl) (by rfl)
  exact ⟨by rfl, by rfl, h.1 0 (by decide), h.1 1 (by decide),
    h.2 0 (by decide), h.2 1 (by decide)⟩

/-- Claim C8: for every valid configuration, at every decoder stage `n >= 1`
(the stages that receive a skip tensor), the skip tensor's channel count
equals the stage input's channel count (the previous block's `out_channels`),
both being `channels[n_blocks - n]`; the post-concatenation count therefore
equals the declared doubled input-channel count of the stage's
transpose-convolution layer; each block's `out_channels` is half of the next
declared decoder channel entry; and a decoder block's output channel count
is always its `out_channels`. -/
theorem decoder_channel_plan (ch : List Nat) (ks : Arg Int) (st : Option (Arg Int))
    (dil sep : Bool) (ne nd : Arg String) (oc : Option Nat) (ist : StateDict)
    (m : UNet2d)
    (hm : UNet2d.init ch ks st dil sep ne nd oc ist = .ok m)
    (hch : 2 ≤ ch.length) (n : Nat) (hn1 : 1 ≤ n) (hn2 : n < ch.length - 1) :
    (∀ (input x : Shape) (skips : List Shape),
      m.encoder.forward input = .ok (x, skips) →
      (skips.reverse[n]?).map Shape.channels
        = some (ch.getD (ch.length - 1 - n) 0)) ∧
    (m.decoder.net[n-1]?).map DecoderBlock2d.out_channels
      = some (ch.getD (ch.length - 1 - n) 0) ∧
    (m.decoder.net[n]?).map DecoderBlock2d.in_channels
      = some (2 * ch.getD (ch.length - 1 - n) 0) ∧
    (m.decoder.net[n]?).map DecoderBlock2d.out_channels
      = some ((UNet2d.channelsDec ch oc).getD (n+1) 0 / 2) ∧
    (∀ (blk : DecoderBlock2d) (x : Shape) (sk : Option Shape) (r : Shape),
      blk.forward x sk = .ok r → r.channels = blk.out_channels) := by
  obtain ⟨enc, dec, hE, hD, hmeq⟩ := UNet2d.init_ok_iff_unet.mp hm
  subst hmeq
  obtain ⟨netE, hloopE, hencE⟩ := Encoder2d.init_ok_iff_enc.mp hE
  subst hencE
  obtain ⟨netD, hloopD, hdecE⟩ := Decoder2d.init_ok_iff_dec.mp hD
  subst hdecE
  obtain ⟨hlenE, hspecE⟩ := Encoder2d.loop_spec_enc hloopE
  obtain ⟨hlenD, hspecD⟩ := Decoder2d.loop_spec_dec hloopD
  have hlenchd : (UNet2d.channelsDec ch oc).length = ch.length := by
    rw [UNet2d.channelsDec_length, UNet2d.channelsDecBase_length (by omega)]
  have hbaselt : ∀ i, 1 ≤ i → i < ch.length - 1 →
      (UNet2d.channelsDec ch oc).getD i 0 = 2 * ch.getD (ch.length - 1 - i) 0 := by
    intro i h1 h2
    match i, h1 with
    | i+1, _ =>
      rw [UNet2d.channelsDec_getD_succ i]
      rw [List.getD_eq_getElem?_getD ((UNet2d.channelsDecBase ch oc)) (i+1),
        UNet2d.channelsDecBase_getElem?_lt h2,
        ← List.getD_eq_getElem?_getD]
  refine ⟨?_, ?_, ?_, ?_, fun blk x sk r h => DecoderBlock2d.forward_channels h⟩
  · intro input x skips hfwd
    have hfwd2 : Encoder2d.runNet netE input = .ok (x, skips) := hfwd
    obtain ⟨hsl, hsc⟩ := Encoder2d.runNet_spec hfwd2
    have hskrev : skips.reverse[n]? = skips[ch.length - 2 - n]? := by
      rw [List.getElem?_reverse (by omega : n < skips.length)]
      rw [hsl, hlenE]
      rw [show ch.length - 1 - 1 - n = ch.length - 2 - n from by omega]
    rw [hskrev]
    have hc := hsc (ch.length - 2 - n) (by omega)
    rw [hc]
    obtain ⟨k, s, _, _, hblk⟩ := hspecE (ch.length - 2 - n) (by omega)
    rw [Nat.zero_add] at hblk
    rw [hblk]
    rw [show ch.length - 2 - n + 1 = ch.length - 1 - n from by omega]
    rfl
  · show (netD[n-1]?).map DecoderBlock2d.out_channels
      = some (ch.getD (ch.length - 1 - n) 0)
    obtain ⟨k, s, nl, _, _, _, hblk⟩ := hspecD (n-1) (by omega)
    rw [Nat.zero_add] at hblk
    rw [hblk]
    simp only [Option.map_some']
    show some ((UNet2d.channelsDec ch oc).getD (n-1+1) 0 / 2) = _
    rw [show n - 1 + 1 = n from by omega]
    rw [hbaselt n hn1 hn2]
    congr 1
    omega
  · show (netD[n]?).map DecoderBlock2d.in_channels
      = some (2 * ch.getD (ch.length - 1 - n) 0)
    obtain ⟨k, s, nl, _, _, _, hblk⟩ := hspecD n (by omega)
    rw [Nat.zero_add] at hblk
    rw [hblk]
    simp only [Option.map_some']
    show some ((UNet2d.channelsDec ch oc).getD n 0) = _
    rw [hbaselt n hn1 hn2]
  · show (netD[n]?).map DecoderBlock2d.out_channels
      = some ((UNet2d.channelsDec ch oc).getD (n+1) 0 / 2)
    obtain ⟨k, s, nl, _, _, _, hblk⟩ := hspecD n (by omega)
    rw [Nat.zero_add] at hblk
    rw [hblk]
    rfl

/-- Witness for `decoder_channel_plan`: `UNet2d([1,2,3], 2, stride=2)` at
stage `n = 1`: skip channels 2, stage-input channels 2, declared deconv
input channels 4, block output half of the next declared entry. -/
theorem decoder_channel_plan_wit :
    2 ≤ ([1,2,3] : List Nat).length ∧ (1:Nat) ≤ 1 ∧ 1 < ([1,2,3] : List Nat).length - 1 ∧
    (([(⟨1,2,4⟩ : Shape), ⟨1,3,2⟩].reverse)[1]?).map Shape.channels = some 2 ∧
    (mEx.decoder.net[0]?).map DecoderBlock2d.out_channels = some 2 ∧
    (mEx.decoder.net[1]?).map DecoderBlock2d.in_channels = some 4 ∧
    (mEx.decoder.net[1]?).map DecoderBlock2d.out_channels
      = some ((UNet2d.channelsDec [1,2,3] none).getD 2 0 / 2) := by
  obtain ⟨ha, hb, hc, hd, _⟩ := decoder_channel_plan [1,2,3] (Arg.scalar 2)
    (some (Arg.scalar 2)) false false (Arg.scalar "relu") (Arg.scalar "relu") none []
    mEx (by rfl) (by decide) 1 (le_refl 1) (by decide)
  exact ⟨by decide, le_refl 1, by decide,
    ha ⟨1,1,8⟩ ⟨1,3,2⟩ [⟨1,2,4⟩, ⟨1,3,2⟩] (by rfl), hb, hc, hd⟩

/-- Claim C9: exporting a model's bundle (its configuration fields plus the
parameter state) and importing it reconstructs the very same model —
identical configuration fields and identical parameter values — so the
reconstructed model's forward output on any input equals the original's. -/
theorem bundle_round_trip (ch : List Nat) (ks : Arg Int) (st : Option (Arg Int))
    (dil sep : Bool) (ne nd : Arg String) (oc : Option Nat) (ist : StateDict)
    (m : UNet2d)
    (hm : UNet2d.init ch ks st dil sep ne nd oc ist = .ok m) (ist2 : StateDict) :
    UNet2d.load_model (UNet2d.get_package m) m.state ist2 = .ok m ∧
    (∀ m2, UNet2d.load_model (UNet2d.get_package m) m.state ist2 = .ok m2 →
      ∀ input, m2.forward input = m.forward input) := by
  obtain ⟨enc, dec, hE, hD, hmeq⟩ := UNet2d.init_ok_iff_unet.mp hm
  subst hmeq
  have hinit2 : UNet2d.init ch ks st dil sep ne nd oc ist2 =
      .ok { channels := ch, kernel_size := ks, stride := st, dilated := dil,
            separable := sep, nonlinear_enc := ne, nonlinear_dec := nd,
            out_channels := oc, encoder := enc, bottleneck := ch.getLastD 0,
            decoder := dec, state := ist2 } :=
    UNet2d.init_ok_iff_unet.mpr ⟨enc, dec, hE, hD, rfl⟩
  have h1 : UNet2d.load_model
      (UNet2d.get_package
        { channels := ch, kernel_size := ks, stride := st, dilated := dil,
          separable := sep, nonlinear_enc := ne, nonlinear_dec := nd,
          out_channels := oc, encoder := enc, bottleneck := ch.getLastD 0,
          decoder := dec, state := ist })
      ist ist2 =
      .ok { channels := ch, kernel_size := ks, stride := st, dilated := dil,
            separable := sep, nonlinear_enc := ne, nonlinear_dec := nd,
            out_channels := oc, encoder := enc, bottleneck := ch.getLastD 0,
            decoder := dec, state := ist } := by
    have step : (UNet2d.init ch ks st dil sep ne nd oc ist2).map
        (fun model => ({ model with state := ist } : UNet2d)) =
        Except.ok
          { channels := ch, kernel_size := ks, stride := st, dilated := dil,
            separable := sep, nonlinear_enc := ne, nonlinear_dec := nd,
            out_channels := oc, encoder := enc, bottleneck := ch.getLastD 0,
            decoder := dec, state := ist } := by
      rw [hinit2]
      rfl
    exact step
  exact ⟨h1, fun m2 h2 input => by
    rw [h1] at h2
    injection h2 with h2
    rw [h2]⟩

/-- Witness for `bundle_round_trip` on the concrete model `mEx`. -/
theorem bundle_round_trip_wit :
    UNet2d.init [1,2,3] (Arg.scalar 2) (some (Arg.scalar 2)) false false
      (Arg.scalar "relu") (Arg.scalar "relu") none [] = .ok mEx ∧
    UNet2d.load_model (UNet2d.get_package mEx) mEx.state [("w", 5)] = .ok mEx :=
  ⟨by rfl, (bundle_round_trip [1,2,3] (Arg.scalar 2) (some (Arg.scalar 2)) false false
    (Arg.scalar "relu") (Arg.scalar "relu") none [] mEx (by rfl) [("w", 5)]).1⟩

/-- Claim C10: for every input, the encoder's forward pass returns exactly
`len(channels) - 1` skip tensors, the last of which is the very tensor
returned as the bottleneck input; and the decoder's forward pass never reads
the first entry of the (reversed) skip list it is handed: stage 0 takes no
skip argument and stages `1..n_blocks-1` consume entries `1..n_blocks-1`
only. -/
theorem encoder_skips_shape (ch : List Nat) (ks : Arg Int) (st : Option (Arg Int))
    (dil sep : Bool) (ne : Arg String) (enc : Encoder2d)
    (hE : Encoder2d.init ch ks st dil sep ne = .ok enc) (hch : 2 ≤ ch.length) :
    (∀ (input out : Shape) (skips : List Shape),
      enc.forward input = .ok (out, skips) →
      skips.length = ch.length - 1 ∧ skips.getLast? = some out) ∧
    (∀ (skipA skipB : Shape) (rest : List Shape)
        (net : List DecoderBlock2d) (x : Shape),
      Decoder2d.go (skipA :: rest) net 0 x = Decoder2d.go (skipB :: rest) net 0 x) := by
  obtain ⟨netE, hloopE, hencE⟩ := Encoder2d.init_ok_iff_enc.mp hE
  subst hencE
  obtain ⟨hlenE, _⟩ := Encoder2d.loop_spec_enc hloopE
  constructor
  · intro input out skips hfwd
    obtain ⟨hsl, _⟩ := Encoder2d.runNet_spec hfwd
    have hlen : skips.length = ch.length - 1 := by rw [hsl, hlenE]
    refine ⟨hlen, ?_⟩
    have hlast := Encoder2d.runNet_last hfwd
    cases hsk : skips with
    | nil =>
      rw [hsk] at hlen
      simp at hlen
      omega
    | cons y ys =>
      rw [hsk] at hlast
      rw [List.getLast?_cons_cons] at hlast
      exact hlast
  · intro skipA skipB rest net x
    exact Decoder2d.go_head_irrelevant net x

/-- Witness for `encoder_skips_shape` on `mEx.encoder` with input spatial
size 8: two skips, the last equal to the bottleneck input; the decoder run
is unchanged when the unused head of the skip list changes. -/
theorem encoder_skips_shape_wit :
    Encoder2d.init [1,2,3] (Arg.scalar 2) (some (Arg.scalar 2)) false false
      (Arg.scalar "relu") = .ok mEx.encoder ∧
    2 ≤ ([1,2,3] : List Nat).length ∧
    mEx.encoder.forward ⟨1,1,8⟩ =
      .ok (⟨1,3,2⟩, [(⟨1,2,4⟩ : Shape), ⟨1,3,2⟩]) ∧
    (([(⟨1,2,4⟩ : Shape), ⟨1,3,2⟩]).length = 2 ∧
      ([(⟨1,2,4⟩ : Shape), ⟨1,3,2⟩]).getLast? = some ⟨1,3,2⟩) ∧
    Decoder2d.go (⟨9,9,9⟩ :: [(⟨1,3,2⟩ : Shape)]) mEx.decoder.net 0 ⟨1,3,2⟩ =
      Decoder2d.go (⟨0,0,0⟩ :: [(⟨1,3,2⟩ : Shape)]) mEx.decoder.net 0 ⟨1,3,2⟩ := by
  have h := encoder_skips_shape [1,2,3] (Arg.scalar 2) (some (Arg.scalar 2)) false false
    (Arg.scalar "relu") mEx.encoder (by rfl) (by decide)
  exact ⟨by rfl, by decide, by rfl,
    h.1 ⟨1,1,8⟩ ⟨1,3,2⟩ [(⟨1,2,4⟩ : Shape), ⟨1,3,2⟩] (by rfl),
    h.2 ⟨9,9,9⟩ ⟨0,0,0⟩ [(⟨1,3,2⟩ : Shape)] mEx.decoder.net ⟨1,3,2⟩⟩

end UNet
